import Mathlib

/-
  Verification of the Elements/BasicElement scene-graph and event-dispatch
  subsystem of google-gadgets-for-linux against its specification.

  The definitions below are a shallow embedding of elements.cc
  (Elements::Impl), img_element.cc (ImgElement) and string_utils.cc
  (GadgetStrCmp).  Collaborators whose sources are not part of the snapshot
  (basic_element.cc, math_utils.cc, element_factory.cc, the view and the
  graphics backend) are either abstracted into function parameters mirroring
  the virtual calls the collection makes, or modelled from the spec; such
  definitions carry a doc comment saying so.

  Machine doubles are modelled by rationals; allocation identity (element and
  canvas pointers) is modelled by serial numbers.
-/

set_option autoImplicit false

namespace GGadget

/-- The EventResult values of event.h: canceled, unhandled, handled. -/
inductive EventResult where
  | canceled
  | unhandled
  | handled
deriving DecidableEq, Repr

/-- A point of the logical coordinate plane (doubles modelled by rationals). -/
abbrev Point : Type := ℚ × ℚ

/-- A canvas produced by the graphics backend, modelled by its pixel size plus
an allocation serial number standing for object identity. -/
structure Canvas where
  cid : Nat
  width : Nat
  height : Nat
deriving DecidableEq, Repr

/-- What a nested child->OnMouseEvent call reports back to the dispatch loop
of Elements::Impl::OnMouseEvent: the EventResult, the element written to the
fired_element output (none when left null), the element written to the
descendant_in_element output (none when left null), and whether the two
scoped death detectors fired during the call (childDies: the child itself was
destroyed; descendantDies: the element written to descendant_in_element was
destroyed, so the detector nulled that pointer again). -/
structure MouseReply where
  result : EventResult
  fired : Option Nat
  inElt : Option Nat
  childDies : Bool
  descendantDies : Bool
deriving DecidableEq, Repr

/-- What a nested child->OnDragEvent call reports back to the dispatch loop of
Elements::Impl::OnDragEvent. -/
structure DragReply where
  result : EventResult
  fired : Option Nat
  childDies : Bool
deriving DecidableEq, Repr

/-- Modelled from the spec: a BasicElement as the Elements collection sees it
(basic_element.cc is not among the sources at hand).  The fields mirror the
data model of the spec and the accessors elements.cc calls: name, visibility,
geometry (position, pin, size, rotation in degrees), the position/size dirty
flags, the element's own cached canvas, and the virtual calls IsPointIn,
OnMouseEvent and OnDragEvent abstracted as function fields.  contentChanged
is the pending changed report of the element's own Draw.  id stands for the
object's pointer identity. -/
structure Element where
  id : Nat
  name : String
  visible : Bool
  x : ℚ
  y : ℚ
  pinX : ℚ
  pinY : ℚ
  width : ℚ
  height : ℚ
  rotation : ℚ
  posChanged : Bool
  sizeChanged : Bool
  contentChanged : Bool
  elemCanvas : Option Canvas
  hit : Point → Bool
  onMouse : Point → MouseReply
  onDrag : Point → DragReply

/-- The private state of Elements::Impl (elements.cc): the children vector in
z-order (earlier = lower), the cached composed canvas, the intended canvas
size width_/height_, and the count_changed_/has_popup_/scrollable_ flags.
nextId and nextCanvasId are allocation counters standing for the freshness of
element and canvas pointers. -/
structure ElementsImpl where
  children : List Element
  width : ℚ
  height : ℚ
  canvas : Option Canvas
  countChanged : Bool
  hasPopup : Bool
  scrollable : Bool
  nextId : Nat
  nextCanvasId : Nat

/- ---------------------------------------------------------------------
   String comparison policy (string_utils.cc)
   --------------------------------------------------------------------- -/

/-- ASCII lower-casing of one character, modelling the byte-wise tolower that
strcasecmp applies in the C locale. -/
def asciiToLower (c : Char) : Char :=
  if 'A' ≤ c ∧ c ≤ 'Z' then Char.ofNat (c.toNat + 32) else c

/-- Three-way lexicographic comparison of character lists: the observable
behaviour of C strcmp (zero exactly on equal strings, otherwise the sign of
the first differing position). -/
def cmpChars : List Char → List Char → Int
  | [], [] => 0
  | [], _ :: _ => -1
  | _ :: _, [] => 1
  | a :: as, b :: bs =>
    if a.toNat < b.toNat then -1
    else if b.toNat < a.toNat then 1
    else cmpChars as bs

/-- The build-time switch GADGET_CASE_SENSITIVE of string_utils.cc; it is not
defined in the default build configuration, so the default policy is
case-insensitive. -/
def gadgetCaseSensitive : Bool := false

/-- GadgetStrCmp of string_utils.cc: strcmp when GADGET_CASE_SENSITIVE is
defined, strcasecmp otherwise. -/
def GadgetStrCmp (s1 s2 : String) : Int :=
  if gadgetCaseSensitive then cmpChars s1.data s2.data
  else cmpChars (s1.data.map asciiToLower) (s2.data.map asciiToLower)

/- ---------------------------------------------------------------------
   Read accessors (elements.cc)
   --------------------------------------------------------------------- -/

/-- Elements::Impl::GetItemByIndex: the child at the index when it is within
bounds, null otherwise. -/
def GetItemByIndex (children : List Element) (index : Int) : Option Element :=
  if 0 ≤ index ∧ index < children.length then children[index.toNat]? else none

/-- The iteration inside Elements::Impl::GetIndexByName: walk the children in
z-order and return the running index of the first child whose name compares
equal to the lookup name under GadgetStrCmp, or -1. -/
def getIndexAux (s : String) : List Element → Int → Int
  | [], _ => -1
  | c :: rest, acc =>
    if GadgetStrCmp c.name s = 0 then acc else getIndexAux s rest (acc + 1)

/-- Elements::Impl::GetIndexByName: -1 for a null or empty lookup name,
otherwise the index of the first child whose name compares equal under
GadgetStrCmp.  The name argument is an Option to model the null pointer. -/
def GetIndexByName (children : List Element) (name : Option String) : Int :=
  match name with
  | none => -1
  | some s => if s = "" then -1 else getIndexAux s children 0

/-- Elements::Impl::GetItemByName: GetItemByIndex of GetIndexByName. -/
def GetItemByName (children : List Element) (name : Option String) :
    Option Element :=
  GetItemByIndex children (GetIndexByName children name)

/- ---------------------------------------------------------------------
   Construction and removal (elements.cc)
   --------------------------------------------------------------------- -/

/-- Modelled from the spec: the element the Factory contract returns for a
recognised tag name (element_factory.cc is not among the sources at hand).
The fresh id stands for the identity of the newly allocated object; the given
name is stored; the remaining state starts out inert. -/
def newElement (id : Nat) (name : String) : Element :=
  { id := id, name := name, visible := true,
    x := 0, y := 0, pinX := 0, pinY := 0, width := 0, height := 0,
    rotation := 0, posChanged := false, sizeChanged := false,
    contentChanged := false, elemCanvas := none,
    hit := fun _ => false,
    onMouse := fun _ =>
      { result := .unhandled, fired := none, inElt := none,
        childDies := false, descendantDies := false },
    onDrag := fun _ =>
      { result := .unhandled, fired := none, childDies := false } }

/-- Modelled from the spec: the Factory contract of the spec, CreateElement
returning a fresh element for a registered tag name and null otherwise.  The
registered table is abstracted as the predicate tags (tag names are matched
case-sensitively by the factory; the predicate carries that behaviour). -/
def CreateElement (tags : String → Bool) (tagName elemName : String)
    (freshId : Nat) : Option Element :=
  if tags tagName then some (newElement freshId elemName) else none

/-- The outcome of AppendElement / InsertElement: the new collection state,
the returned element (null on failure), and the elements destroyed during the
call (the veto path deletes the freshly created element). -/
structure AddResult where
  state : ElementsImpl
  ret : Option Element
  destroyed : List Element

/-- Elements::Impl::AppendElement: create via the factory (null tag lookup
fails the call), offer the new element to the view's OnElementAdd hook
(abstracted as accept); on acceptance push it at the back of the children
vector and mark the count changed, on veto delete it and return null. -/
def AppendElement (tags : String → Bool) (accept : Element → Bool)
    (tagName elemName : String) (st : ElementsImpl) : AddResult :=
  match CreateElement tags tagName elemName st.nextId with
  | none => { state := st, ret := none, destroyed := [] }
  | some e =>
    let st1 : ElementsImpl := { st with nextId := st.nextId + 1 }
    if accept e then
      let st2 : ElementsImpl :=
        { st1 with children := st1.children ++ [e], countChanged := true }
      { state := st2, ret := some e, destroyed := [] }
    else
      { state := st1, ret := none, destroyed := [e] }

/-- Insertion of an element before the given position of a list, the
behaviour of std::vector insert at an iterator. -/
def insertAt (n : Nat) (e : Element) (l : List Element) : List Element :=
  match n, l with
  | 0, l => e :: l
  | _ + 1, [] => [e]
  | n + 1, c :: l => c :: insertAt n e l

/-- Elements::Impl::InsertElement: like AppendElement, but the accepted
element is inserted before the position std::find yields for the before
pointer — the first child equal to it, or the end iterator when before is
null or not a child (List.findIdx returns the length in that case, which is
the end position).  before is the pointer identity of the reference child. -/
def InsertElement (tags : String → Bool) (accept : Element → Bool)
    (tagName : String) (before : Option Nat) (elemName : String)
    (st : ElementsImpl) : AddResult :=
  match CreateElement tags tagName elemName st.nextId with
  | none => { state := st, ret := none, destroyed := [] }
  | some e =>
    let st1 : ElementsImpl := { st with nextId := st.nextId + 1 }
    if accept e then
      let j := st1.children.findIdx fun c => before = some c.id
      let st2 : ElementsImpl :=
        { st1 with children := insertAt j e st1.children, countChanged := true }
      { state := st2, ret := some e, destroyed := [] }
    else
      { state := st1, ret := none, destroyed := [e] }

/- ---------------------------------------------------------------------
   Coordinate mapping (elements.cc, with math_utils helpers modelled
   from the spec)
   --------------------------------------------------------------------- -/

/-- The trigonometric functions over an angle in degrees, abstracted: the
composition DegreesToRadians plus cos or sin used by the math_utils helpers
(not among the sources at hand).  Theorems that need them assume only the
bound Trig.Bounded below. -/
structure Trig where
  cosD : ℚ → ℚ
  sinD : ℚ → ℚ

/-- Cosine and sine are bounded by one in absolute value. -/
def Trig.Bounded (t : Trig) : Prop :=
  ∀ θ : ℚ, |t.cosD θ| ≤ 1 ∧ |t.sinD θ| ≤ 1

/-- Modelled from the spec: ParentCoordToChildCoord of math_utils (not among
the sources at hand) is the inverse of the compositing transform — translate
by the child position, rotate about the pin — so a parent-space point maps to
child space by the inverse rotation of the offset from the child position,
shifted by the pin. -/
def ParentCoordToChildCoord (t : Trig) (parentX parentY x y pinX pinY deg : ℚ) :
    Point :=
  let dx := parentX - x
  let dy := parentY - y
  (t.cosD deg * dx + t.sinD deg * dy + pinX,
   t.cosD deg * dy - t.sinD deg * dx + pinY)

/-- Elements::Impl::MapChildPositionEvent: with an owner element, delegate to
the owner's SelfCoordToChildCoord (a virtual call on code not among the
sources at hand, abstracted as the ownerMap function); at the view root use
ParentCoordToChildCoord with the child's position, pin and rotation. -/
def MapChildPositionEvent (t : Trig)
    (ownerMap : Option (Element → Point → Point)) (child : Element)
    (p : Point) : Point :=
  match ownerMap with
  | some f => f child p
  | none =>
    ParentCoordToChildCoord t p.1 p.2 child.x child.y child.pinX child.pinY
      child.rotation

/- ---------------------------------------------------------------------
   Mouse and drag dispatch (elements.cc)
   --------------------------------------------------------------------- -/

/-- The observable outcome of Elements::Impl::OnMouseEvent: the EventResult,
the fired_element and in_element outputs, plus — for specification purposes
only — the invoked trace recording, in call order, each child whose
OnMouseEvent was invoked together with the reply that call produced.  The
trace influences nothing; it only lets theorems speak about which handlers
ran. -/
structure MouseDispatch where
  result : EventResult
  fired : Option Nat
  inElt : Option Nat
  invoked : List (Nat × MouseReply)

/-- The loop body of Elements::Impl::OnMouseEvent over the already reversed
children list, threading the in_element accumulator: skip invisible children;
map the event coordinates into the child's space; if the child contains the
point, invoke its handler under the two scoped death detectors; if the child
was destroyed return the handler's result at once (in_element untouched);
otherwise fill in_element if still null (preferring the surviving descendant,
falling back to the child) and return the result as soon as fired_element is
set, else continue with the next child. -/
def mouseLoop (t : Trig) (ownerMap : Option (Element → Point → Point))
    (p : Point) : List Element → Option Nat → MouseDispatch
  | [], inE => { result := .unhandled, fired := none, inElt := inE, invoked := [] }
  | c :: rest, inE =>
    if c.visible = false then mouseLoop t ownerMap p rest inE
    else
      let q := MapChildPositionEvent t ownerMap c p
      if c.hit q = false then mouseLoop t ownerMap p rest inE
      else
        let r := c.onMouse q
        if r.childDies then
          { result := r.result, fired := r.fired, inElt := inE,
            invoked := [(c.id, r)] }
        else
          let inE1 := if inE = none then
              some ((if r.descendantDies then none else r.inElt).getD c.id)
            else inE
          if r.fired.isSome then
            { result := r.result, fired := r.fired, inElt := inE1,
              invoked := [(c.id, r)] }
          else
            let out := mouseLoop t ownerMap p rest inE1
            { out with invoked := (c.id, r) :: out.invoked }

/-- Elements::Impl::OnMouseEvent: iterate over the children in reverse
z-order (the vector lists higher elements last) with null fired_element and
in_element outputs.  Mouse-over and mouse-out events never reach this path
(the view handles them directly, per the assertion at the top of the
function), so the event is represented by its coordinates alone. -/
def OnMouseEvent (t : Trig) (ownerMap : Option (Element → Point → Point))
    (children : List Element) (p : Point) : MouseDispatch :=
  mouseLoop t ownerMap p children.reverse none

/-- The observable outcome of Elements::Impl::OnDragEvent, with the same
specification-only invoked trace as MouseDispatch. -/
structure DragDispatch where
  result : EventResult
  fired : Option Nat
  invoked : List (Nat × DragReply)

/-- The loop body of Elements::Impl::OnDragEvent over the already reversed
children list: skip invisible children, map coordinates, and for a containing
child invoke the handler under the scoped death detector; return the
handler's result as soon as the child was destroyed or fired_element is
set. -/
def dragLoop (t : Trig) (ownerMap : Option (Element → Point → Point))
    (p : Point) : List Element → DragDispatch
  | [] => { result := .unhandled, fired := none, invoked := [] }
  | c :: rest =>
    if c.visible = false then dragLoop t ownerMap p rest
    else
      let q := MapChildPositionEvent t ownerMap c p
      if c.hit q = false then dragLoop t ownerMap p rest
      else
        let r := c.onDrag q
        if r.childDies || r.fired.isSome then
          { result := r.result, fired := r.fired, invoked := [(c.id, r)] }
        else
          let out := dragLoop t ownerMap p rest
          { out with invoked := (c.id, r) :: out.invoked }

/-- Elements::Impl::OnDragEvent: reverse z-order iteration; only drag-motion
events are dispatched along the tree (assertion at the top of the function),
so the event is represented by its coordinates alone. -/
def OnDragEvent (t : Trig) (ownerMap : Option (Element → Point → Point))
    (children : List Element) (p : Point) : DragDispatch :=
  dragLoop t ownerMap p children.reverse

/- ---------------------------------------------------------------------
   Draw (elements.cc)
   --------------------------------------------------------------------- -/

/-- Modelled from the spec: BasicElement::Draw (not among the sources at
hand) returns the element's own cached canvas and reports changed exactly
when its pixels differ from the previous call; a pending content change or a
size change makes the pixels differ, and the report is consumed by the call.
The position-changed flag is not consumed here: elements.cc itself reads and
clears it right after the call. -/
def elementDraw (c : Element) : Option Canvas × Bool × Element :=
  (c.elemCanvas, c.contentChanged || c.sizeChanged,
   { c with contentChanged := false, sizeChanged := false })

/-- One iteration of the first child loop of Elements::Impl::Draw, threading
the updated children (in order), the per-child canvases, the changed flag and
the has_popup_ member: the view's popup child is skipped (null canvas slot,
no flag consumption); any other child is drawn, its position-changed flag is
consumed into the changed report, and the report is OR-ed into changed; then
the popup flip check compares this child's popup-ness with the has_popup_
member, forcing changed and updating the member when they differ. -/
def drawChildStep (popup : Option Nat)
    (acc : List Element × List (Option Canvas) × Bool × Bool) (c : Element) :
    List Element × List (Option Canvas) × Bool × Bool :=
  let isPopup : Bool := popup = some c.id
  let step :=
    if isPopup then (c, (none : Option Canvas), acc.2.2.1)
    else
      let d := elementDraw c
      let d2 := if d.2.2.posChanged then
          ({ d.2.2 with posChanged := false }, true)
        else (d.2.2, d.2.1)
      (d2.1, d.1, acc.2.2.1 || d2.2)
  let flip := if isPopup ≠ acc.2.2.2 then (true, isPopup)
    else (step.2.2, acc.2.2.2)
  (acc.1 ++ [step.1], acc.2.1 ++ [step.2.1], flip.1, flip.2)

/-- The outcome of Elements::Impl::Draw: the returned canvas (null when there
is nothing to return), the changed output, the new state, and — for
specification purposes only — composited, recording whether the compositing
pass over the children ran (the body of the final if over changed). -/
structure DrawOut where
  ret : Option Canvas
  changed : Bool
  composited : Bool
  state : ElementsImpl

/-- The tail of Elements::Impl::Draw once a canvas of the right size is in
place: run the child loop, then composite exactly when changed ended up true
(compositing redraws the cached canvas's pixels back to front; pixels are not
modelled, the canvas object is unchanged), and return the cached canvas. -/
def drawMain (popup : Option Nat) (st : ElementsImpl) (changed0 : Bool) :
    DrawOut :=
  let loopOut := st.children.foldl (drawChildStep popup)
    ([], [], changed0, st.hasPopup)
  let st2 : ElementsImpl :=
    { st with children := loopOut.1, hasPopup := loopOut.2.2.2 }
  { ret := st2.canvas, changed := loopOut.2.2.1,
    composited := loopOut.2.2.1, state := st2 }

/-- Elements::Impl::Draw: start from count_changed_ (consuming it); return
null at once for an empty collection; recreate the cached canvas when its
pixel dimensions (the ceilings of width_/height_) differ from the cache,
returning null at once when the new dimensions are degenerate; then run the
child loop and composite as needed.  The graphics backend's NewCanvas is
modelled as always succeeding, handing out a fresh serial number. -/
def Draw (popup : Option Nat) (st : ElementsImpl) : DrawOut :=
  let changed0 := st.countChanged
  let st0 : ElementsImpl := { st with countChanged := false }
  if st0.children.isEmpty then
    { ret := none, changed := changed0, composited := false, state := st0 }
  else
    let ncw := (Int.ceil st0.width).toNat
    let nch := (Int.ceil st0.height).toNat
    let dimsOk : Bool :=
      match st0.canvas with
      | some cv => ncw == cv.width && nch == cv.height
      | none => false
    if dimsOk then drawMain popup st0 changed0
    else
      let st1 : ElementsImpl := { st0 with canvas := none }
      if ncw = 0 ∨ nch = 0 then
        { ret := none, changed := true, composited := false, state := st1 }
      else
        let cv : Canvas := { cid := st1.nextCanvasId, width := ncw, height := nch }
        let st2 : ElementsImpl :=
          { st1 with canvas := some cv, nextCanvasId := st1.nextCanvasId + 1 }
        drawMain popup st2 true

/- ---------------------------------------------------------------------
   Layout and the children extent (elements.cc)
   --------------------------------------------------------------------- -/

/-- Modelled from the spec: GetChildExtentInParent of math_utils (not among
the sources at hand) computes the extent — the largest x and the largest y
coordinate in the parent space — of a child rectangle of the given size whose
pin point sits at (x, y), rotated by the given angle in degrees about the
pin: the maximum over the rectangle's four corners of the corner's
parent-space coordinates. -/
def GetChildExtentInParent (t : Trig) (x y pinX pinY w h deg : ℚ) : ℚ × ℚ :=
  let cosv := t.cosD deg
  let sinv := t.sinD deg
  let px := fun cx cy : ℚ => x + cosv * (cx - pinX) - sinv * (cy - pinY)
  let py := fun cx cy : ℚ => y + sinv * (cx - pinX) + cosv * (cy - pinY)
  (max (max (px 0 0) (px w 0)) (max (px 0 h) (px w h)),
   max (max (py 0 0) (py w 0)) (max (py 0 h) (py w h)))

/-- Elements::Impl::UpdateChildExtent: grow the running extent by the child's
contribution, first estimating an upper bound cheaply (position plus the sum
of the larger pin-to-edge distances of both axes) and computing the actual
rotated extent only when the estimate beats the running extent in either
dimension. -/
def UpdateChildExtent (t : Trig) (child : Element) (ext : ℚ × ℚ) : ℚ × ℚ :=
  let est := max child.pinX (child.width - child.pinX) +
    max child.pinY (child.height - child.pinY)
  let cew := child.x + est
  let ceh := child.y + est
  if cew > ext.1 ∨ ceh > ext.2 then
    let a := GetChildExtentInParent t child.x child.y child.pinX child.pinY
      child.width child.height child.rotation
    (if a.1 > ext.1 then a.1 else ext.1, if a.2 > ext.2 then a.2 else ext.2)
  else ext

/-- Elements::Impl::Layout.  The children's own Layout calls (virtual,
recomputing each child's internal geometry; not among the sources at hand)
are modelled as the identity: the claims read the children's geometry as it
stands after those calls.  Scrollable: recompute width_/height_ as the
children extent, but only when some child reports a position or size change
or no cached canvas exists.  Not scrollable: the ceiling of the owner's pixel
size (ownerDims; none models a null owner), falling back to the view's size
for the view's root collection. -/
def Layout (t : Trig) (ownerDims : Option (ℚ × ℚ)) (viewDims : ℚ × ℚ)
    (st : ElementsImpl) : ElementsImpl :=
  if st.scrollable then
    let needUpdate := st.children.any fun c => c.posChanged || c.sizeChanged
    if needUpdate || st.canvas.isNone then
      let e := st.children.foldl (fun acc c => UpdateChildExtent t c acc) (0, 0)
      { st with width := e.1, height := e.2 }
    else st
  else
    match ownerDims with
    | some od =>
      { st with width := ((Int.ceil od.1).toNat : ℚ),
                height := ((Int.ceil od.2).toNat : ℚ) }
    | none => { st with width := viewDims.1, height := viewDims.2 }

/-- One child's contribution to the bounding extent as the spec words it:
grow the running extent to cover the child's rotated rectangle. -/
def boundingStep (t : Trig) (acc : ℚ × ℚ) (c : Element) : ℚ × ℚ :=
  let a := GetChildExtentInParent t c.x c.y c.pinX c.pinY c.width c.height
    c.rotation
  (max acc.1 a.1, max acc.2 a.2)

/-- The bounding extent of the children as the spec words it: the smallest
extent from zero covering every child's rotated rectangle, each child's
contribution computed from its position, pin, size and rotation. -/
def boundingExtent (t : Trig) (children : List Element) : ℚ × ℚ :=
  children.foldl (boundingStep t) (0, 0)

/- ---------------------------------------------------------------------
   ImgElement::IsPointIn (img_element.cc)
   --------------------------------------------------------------------- -/

/-- The cropMaintainAspect modes of ImgElement. -/
inductive CropMaintainAspect where
  | cropFalse
  | cropTrue
  | cropPhoto
deriving DecidableEq, Repr

/-- An image as ImgElement::IsPointIn consumes it: pixel dimensions plus
GetPointValue, returning the opacity of a source point or failing (none) when
the value cannot be read there. -/
structure ImageModel where
  width : Nat
  height : Nat
  getPointValue : Point → Option ℚ

/-- The state of an ImgElement that IsPointIn reads: the loaded image (none
when no image is set), the crop mode, the stretchMiddle flag, and the
element's pixel size. -/
structure ImgState where
  image : Option ImageModel
  crop : CropMaintainAspect
  stretchMiddle : Bool
  pxWidth : ℚ
  pxHeight : ℚ

/-- Modelled from the spec: BasicElement::IsPointIn (not among the sources at
hand): the coordinates are already in the element's local space, so the base
test is containment in the rectangle from the origin to (width, height). -/
def basicIsPointIn (w h x y : ℚ) : Bool :=
  decide (0 ≤ x) && decide (x ≤ w) && decide (0 ≤ y) && decide (y ≤ h)

/-- The local-to-image coordinate mapping inside ImgElement::IsPointIn, one
branch per crop / stretch-middle mode: plain stretching divides out the
element size; the crop modes scale uniformly by the larger axis ratio, center
the scaled image (never cropping the top in photo mode), and map back into
image coordinates.  msm abstracts MapStretchMiddleCoordDestToSrc (not among
the sources at hand), taking x, y, the image size and the element size. -/
def imgMapPoint (msm : ℚ → ℚ → ℚ → ℚ → ℚ → ℚ → Point) (img : ImgState)
    (im : ImageModel) (x y : ℚ) : Point :=
  let imgw : ℚ := im.width
  let imgh : ℚ := im.height
  let pxw := img.pxWidth
  let pxh := img.pxHeight
  if img.crop = CropMaintainAspect.cropFalse then
    if img.stretchMiddle then msm x y imgw imgh pxw pxh
    else (x * imgw / pxw, y * imgh / pxh)
  else
    let scale := max (pxw / imgw) (pxh / imgh)
    let w := scale * imgw
    let h := scale * imgh
    let x0 := (pxw - w) / 2
    let y0 := (pxh - h) / 2
    let y1 := if img.crop = CropMaintainAspect.cropPhoto ∧ y0 < 0 then 0 else y0
    ((x - x0) * imgw / w, (y - y1) * imgh / h)

/-- ImgElement::IsPointIn: false outside the base element bounds; with a
loaded image and positive pixel dimensions, map the point into image
coordinates and consult GetPointValue — a failed read counts as an opaque
point (true), otherwise the point is in exactly when the opacity is positive;
without an image (or with degenerate pixel dimensions) false. -/
def ImgIsPointIn (msm : ℚ → ℚ → ℚ → ℚ → ℚ → ℚ → Point) (img : ImgState)
    (x y : ℚ) : Bool :=
  if basicIsPointIn img.pxWidth img.pxHeight x y = false then false
  else
    match img.image with
    | some im =>
      if 0 < img.pxWidth ∧ 0 < img.pxHeight then
        match im.getPointValue (imgMapPoint msm img im x y) with
        | none => true
        | some op => decide (0 < op)
      else false
    | none => false

/- ---------------------------------------------------------------------
   Helper lemmas
   --------------------------------------------------------------------- -/

theorem insertAt_eq_take_drop (e : Element) :
    ∀ (n : Nat) (l : List Element), n ≤ l.length →
      insertAt n e l = l.take n ++ e :: l.drop n := by
  intro n
  induction n with
  | zero => intro l _; cases l <;> simp [insertAt]
  | succ n ih =>
    intro l hn
    cases l with
    | nil => simp at hn
    | cons c cs =>
      simp only [List.length_cons, Nat.succ_le_succ_iff] at hn
      simp [insertAt, ih cs hn]

theorem insertAt_length_eq_append (e : Element) :
    ∀ l : List Element, insertAt l.length e l = l ++ [e] := by
  intro l
  induction l with
  | nil => simp [insertAt]
  | cons c cs ih => simp [insertAt, ih]

theorem findIdx_eq_length_of_none {p : Element → Bool} :
    ∀ l : List Element, (∀ c ∈ l, p c = false) → l.findIdx p = l.length := by
  intro l
  induction l with
  | nil => simp
  | cons c cs ih =>
    intro h
    have hc := h c (by simp)
    simp [List.findIdx_cons, hc, ih fun d hd => h d (by simp [hd])]

theorem findIdx_le_length_elems {p : Element → Bool} :
    ∀ l : List Element, l.findIdx p ≤ l.length := by
  intro l
  induction l with
  | nil => simp
  | cons c cs ih =>
    by_cases hc : p c = true <;>
      simp [List.findIdx_cons, hc, Nat.succ_le_succ ih]

/- ---------------------------------------------------------------------
   C3: insertion order
   --------------------------------------------------------------------- -/

/-- C3: for every succeeding AppendElement/InsertElement call, AppendElement
places the new element at the end of the children sequence (top of z-order);
InsertElement places it immediately before the first child the before pointer
denotes, or at the end when before is null or not a current child; and
GetItemByIndex reads the sequence back positionally, so the elements come
back in exactly insertion order. -/
theorem c3_insertion_order (tags : String → Bool) (accept : Element → Bool)
    (tagName elemName : String) (before : Option Nat) (st : ElementsImpl) :
    (∀ e, (AppendElement tags accept tagName elemName st).ret = some e →
      (AppendElement tags accept tagName elemName st).state.children =
        st.children ++ [e]) ∧
    (∀ e, (InsertElement tags accept tagName before elemName st).ret = some e →
      (InsertElement tags accept tagName before elemName st).state.children =
        st.children.take (st.children.findIdx fun c => before = some c.id) ++
          e :: st.children.drop
            (st.children.findIdx fun c => before = some c.id)) ∧
    (∀ e, (InsertElement tags accept tagName before elemName st).ret = some e →
      (before = none ∨ ∀ c ∈ st.children, before ≠ some c.id) →
      (InsertElement tags accept tagName before elemName st).state.children =
        st.children ++ [e]) ∧
    (∀ (l : List Element) (i : Nat), i < l.length →
      GetItemByIndex l (i : Int) = l[i]?) := by
  refine ⟨?_, ?_, ?_, ?_⟩
  · intro e he
    cases htag : tags tagName with
    | false => simp [AppendElement, CreateElement, htag] at he
    | true =>
      cases hacc : accept (newElement st.nextId elemName) with
      | false => simp [AppendElement, CreateElement, htag, hacc] at he
      | true =>
        simp [AppendElement, CreateElement, htag, hacc] at he ⊢
        simp [← he]
  · intro e he
    cases htag : tags tagName with
    | false => simp [InsertElement, CreateElement, htag] at he
    | true =>
      cases hacc : accept (newElement st.nextId elemName) with
      | false => simp [InsertElement, CreateElement, htag, hacc] at he
      | true =>
        simp [InsertElement, CreateElement, htag, hacc] at he ⊢
        subst he
        exact insertAt_eq_take_drop _ _ st.children (findIdx_le_length_elems _)
  · intro e he hnone
    cases htag : tags tagName with
    | false => simp [InsertElement, CreateElement, htag] at he
    | true =>
      cases hacc : accept (newElement st.nextId elemName) with
      | false => simp [InsertElement, CreateElement, htag, hacc] at he
      | true =>
        simp [InsertElement, CreateElement, htag, hacc] at he ⊢
        subst he
        have hall : ∀ c ∈ st.children,
            (decide (before = some c.id)) = false := by
          intro c hc
          rcases hnone with h | h
          · subst h; simp
          · simpa using h c hc
        rw [findIdx_eq_length_of_none st.children hall]
        exact insertAt_length_eq_append _ st.children
  · intro l i hi
    simp [GetItemByIndex, hi]

/-- Witness for C3 at a concrete collection: with a factory knowing the div
tag and a view accepting everything, appending to a one-element collection
puts the new element at index 1. -/
theorem c3_insertion_order_witness :
    ((AppendElement (fun _ => true) (fun _ => true) "div" "b"
        { children := [newElement 0 "a"], width := 0, height := 0,
          canvas := none, countChanged := false, hasPopup := false,
          scrollable := false, nextId := 1, nextCanvasId := 0 }).ret =
      some (newElement 1 "b")) ∧
    (AppendElement (fun _ => true) (fun _ => true) "div" "b"
        { children := [newElement 0 "a"], width := 0, height := 0,
          canvas := none, countChanged := false, hasPopup := false,
          scrollable := false, nextId := 1, nextCanvasId := 0 }).state.children =
      [newElement 0 "a"] ++ [newElement 1 "b"] := by
  have h := (c3_insertion_order (fun _ => true) (fun _ => true) "div" "b" none
    { children := [newElement 0 "a"], width := 0, height := 0,
      canvas := none, countChanged := false, hasPopup := false,
      scrollable := false, nextId := 1, nextCanvasId := 0 }).1
  exact ⟨rfl, h (newElement 1 "b") rfl⟩

/- ---------------------------------------------------------------------
   C5: construction failures
   --------------------------------------------------------------------- -/

/-- C5: AppendElement and InsertElement return null exactly when the factory
does not recognise the tag name or the view's OnElementAdd hook vetoes the
addition; in the veto case, and only then, the freshly created element is
destroyed before returning; in every failure case the children sequence is
left untouched. -/
theorem c5_construction_failures (tags : String → Bool)
    (accept : Element → Bool) (tagName elemName : String)
    (before : Option Nat) (st : ElementsImpl) :
    ((AppendElement tags accept tagName elemName st).ret = none ↔
      tags tagName = false ∨ accept (newElement st.nextId elemName) = false) ∧
    ((AppendElement tags accept tagName elemName st).ret = none →
      (AppendElement tags accept tagName elemName st).state.children =
        st.children) ∧
    (tags tagName = true → accept (newElement st.nextId elemName) = false →
      (AppendElement tags accept tagName elemName st).destroyed =
        [newElement st.nextId elemName]) ∧
    (tags tagName = false →
      (AppendElement tags accept tagName elemName st).destroyed = []) ∧
    ((InsertElement tags accept tagName before elemName st).ret = none ↔
      tags tagName = false ∨ accept (newElement st.nextId elemName) = false) ∧
    ((InsertElement tags accept tagName before elemName st).ret = none →
      (InsertElement tags accept tagName before elemName st).state.children =
        st.children) ∧
    (tags tagName = true → accept (newElement st.nextId elemName) = false →
      (InsertElement tags accept tagName before elemName st).destroyed =
        [newElement st.nextId elemName]) ∧
    (tags tagName = false →
      (InsertElement tags accept tagName before elemName st).destroyed = []) := by
  cases htag : tags tagName with
  | false =>
    simp [AppendElement, InsertElement, CreateElement, htag]
  | true =>
    cases hacc : accept (newElement st.nextId elemName) with
    | false => simp [AppendElement, InsertElement, CreateElement, htag, hacc]
    | true => simp [AppendElement, InsertElement, CreateElement, htag, hacc]

/-- Witness for C5 at a concrete collection: a factory that only knows the
div tag yields null for an unknown tag, and a vetoing view destroys the
fresh element and leaves the children untouched. -/
theorem c5_construction_failures_witness :
    (AppendElement (fun tag => tag = "div") (fun _ => true) "bread" "x"
        { children := [], width := 0, height := 0, canvas := none,
          countChanged := false, hasPopup := false, scrollable := false,
          nextId := 0, nextCanvasId := 0 }).ret = none ∧
    (AppendElement (fun _ => true) (fun _ => false) "div" "x"
        { children := [], width := 0, height := 0, canvas := none,
          countChanged := false, hasPopup := false, scrollable := false,
          nextId := 0, nextCanvasId := 0 }).destroyed = [newElement 0 "x"] := by
  have h1 := (c5_construction_failures (fun tag => tag = "div")
    (fun _ => true) "bread" "x" none
    { children := [], width := 0, height := 0, canvas := none,
      countChanged := false, hasPopup := false, scrollable := false,
      nextId := 0, nextCanvasId := 0 }).1
  have h2 := (c5_construction_failures (fun _ => true) (fun _ => false)
    "div" "x" none
    { children := [], width := 0, height := 0, canvas := none,
      countChanged := false, hasPopup := false, scrollable := false,
      nextId := 0, nextCanvasId := 0 }).2.2.1
  exact ⟨h1.mpr (Or.inl (by decide)), h2 rfl rfl⟩

/- ---------------------------------------------------------------------
   C4 / C10: name lookup
   --------------------------------------------------------------------- -/

theorem cmpChars_eq_zero_iff :
    ∀ a b : List Char, cmpChars a b = 0 ↔ a = b := by
  intro a
  induction a with
  | nil => intro b; cases b <;> simp [cmpChars]
  | cons x xs ih =>
    intro b
    cases b with
    | nil => simp [cmpChars]
    | cons y ys =>
      by_cases hlt : x.toNat < y.toNat
      · simp only [cmpChars, if_pos hlt]
        constructor
        · intro h; exact absurd h (by decide)
        · intro h
          injection h with h1 _
          subst h1
          exact absurd hlt (by omega)
      · by_cases hgt : y.toNat < x.toNat
        · simp only [cmpChars, if_neg hlt, if_pos hgt]
          constructor
          · intro h; exact absurd h (by decide)
          · intro h
            injection h with h1 _
            subst h1
            exact absurd hgt (by omega)
        · have hxy : x = y := by
            have : x.toNat = y.toNat := by omega
            calc x = Char.ofNat x.toNat := (Char.ofNat_toNat x).symm
              _ = Char.ofNat y.toNat := by rw [this]
              _ = y := Char.ofNat_toNat y
          subst hxy
          simp only [cmpChars, if_neg hlt, if_neg hgt]
          rw [ih ys]
          simp

/-- GadgetStrCmp compares equal exactly on strings that agree after ASCII
lower-casing: the case-insensitive policy of the default build. -/
theorem GadgetStrCmp_eq_zero_iff (a b : String) :
    GadgetStrCmp a b = 0 ↔ a.data.map asciiToLower = b.data.map asciiToLower := by
  simp [GadgetStrCmp, gadgetCaseSensitive, cmpChars_eq_zero_iff]

theorem getIndexAux_nonneg (s : String) :
    ∀ (l : List Element) (n : Int), 0 ≤ n →
      getIndexAux s l n = -1 ∨ n ≤ getIndexAux s l n := by
  intro l
  induction l with
  | nil => intro n _; left; rfl
  | cons c cs ih =>
    intro n hn
    by_cases hc : GadgetStrCmp c.name s = 0
    · right; simp [getIndexAux, hc]
    · have := ih (n + 1) (by omega)
      rcases this with h | h
      · left; simpa [getIndexAux, hc] using h
      · right
        simp only [getIndexAux, if_neg hc]
        omega

theorem getIndexAux_shift (s : String) :
    ∀ (l : List Element) (n : Int), 0 ≤ n →
      getIndexAux s l (n + 1) =
        (if getIndexAux s l n < 0 then -1 else getIndexAux s l n + 1) := by
  intro l
  induction l with
  | nil => intro n _; simp [getIndexAux]
  | cons c cs ih =>
    intro n hn
    by_cases hc : GadgetStrCmp c.name s = 0
    · simp [getIndexAux, hc]; omega
    · simp only [getIndexAux, if_neg hc]
      exact ih (n + 1) (by omega)

theorem getItemByName_eq_find (s : String) (hs : s ≠ "") :
    ∀ children : List Element,
      GetItemByName children (some s) =
        children.find? fun c => decide (GadgetStrCmp c.name s = 0) := by
  intro children
  induction children with
  | nil => simp [GetItemByName, GetIndexByName, getIndexAux, GetItemByIndex, hs]
  | cons c cs ih =>
    by_cases hc : GadgetStrCmp c.name s = 0
    · simp [GetItemByName, GetIndexByName, getIndexAux, hc, hs, GetItemByIndex,
        List.find?_cons_of_pos]
    · have step : getIndexAux s (c :: cs) 0 = getIndexAux s cs 1 := by
        simp [getIndexAux, hc]
      have hfind : (c :: cs).find?
          (fun c => decide (GadgetStrCmp c.name s = 0)) =
          cs.find? fun c => decide (GadgetStrCmp c.name s = 0) :=
        List.find?_cons_of_neg _ (by simpa using hc)
      rw [GetItemByName, GetIndexByName, if_neg hs, step, hfind, ← ih,
        GetItemByName, GetIndexByName, if_neg hs]
      have hshift := getIndexAux_shift s cs 0 le_rfl
      rcases getIndexAux_nonneg s cs 0 le_rfl with hneg | hpos
      · rw [show (0 : Int) + 1 = 1 by rfl] at hshift
        rw [hshift, hneg]
        simp [GetItemByIndex]
      · have hml : getIndexAux s cs 1 = getIndexAux s cs 0 + 1 := by
          rw [show (0 : Int) + 1 = 1 by rfl] at hshift
          rw [hshift, if_neg (by omega)]
        rw [hml]
        simp only [GetItemByIndex, List.length_cons]
        by_cases hb : getIndexAux s cs 0 < (cs.length : Int)
        · rw [if_pos ⟨by omega, by push_cast; omega⟩, if_pos ⟨hpos, hb⟩]
          have htn : (getIndexAux s cs 0 + 1).toNat =
              (getIndexAux s cs 0).toNat + 1 := by omega
          rw [htn]
          simp
        · rw [if_neg (by push_cast; omega), if_neg (by omega)]

/-- C4: for a non-empty lookup name, GetItemByName returns the first
(lowest-index, lowest in z-order) child whose name compares equal to the
lookup name under GadgetStrCmp; the policy is case-insensitive in the default
build (GADGET_CASE_SENSITIVE undefined): two names compare equal exactly when
they agree after ASCII lower-casing; and the lookup returns null when no
child matches — in particular on an empty collection. -/
theorem c4_get_item_by_name (children : List Element) (s : String)
    (hs : s ≠ "") :
    (GetItemByName children (some s) =
      children.find? fun c => decide (GadgetStrCmp c.name s = 0)) ∧
    (∀ a b : String, GadgetStrCmp a b = 0 ↔
      a.data.map asciiToLower = b.data.map asciiToLower) ∧
    ((∀ c ∈ children, GadgetStrCmp c.name s ≠ 0) →
      GetItemByName children (some s) = none) ∧
    GetItemByName ([] : List Element) (some s) = none := by
  refine ⟨getItemByName_eq_find s hs children, GadgetStrCmp_eq_zero_iff,
    fun hnone => ?_, by simp [GetItemByName, GetIndexByName, getIndexAux,
      GetItemByIndex, hs]⟩
  rw [getItemByName_eq_find s hs children]
  rw [List.find?_eq_none]
  intro c hc
  simpa using hnone c hc

/-- Witness for C4: in a collection holding children named A and b, looking
up the name a finds the first child (case-insensitively), and looking up a
missing name yields null. -/
theorem c4_get_item_by_name_witness :
    GetItemByName [newElement 0 "A", newElement 1 "a"] (some "a") =
      List.find? (fun c => decide (GadgetStrCmp c.name "a" = 0))
        [newElement 0 "A", newElement 1 "a"] ∧
    GetItemByName [newElement 0 "A", newElement 1 "a"] (some "a") =
      some (newElement 0 "A") ∧
    GetItemByName [newElement 0 "A", newElement 1 "a"] (some "zz") = none := by
  have h := c4_get_item_by_name [newElement 0 "A", newElement 1 "a"] "a"
    (by decide)
  have h2 := c4_get_item_by_name [newElement 0 "A", newElement 1 "a"] "zz"
    (by decide)
  refine ⟨h.1, ?_, ?_⟩
  · rw [h.1]
    rw [List.find?_cons_of_pos _ (by decide)]
  · refine h2.2.2.1 ?_
    intro c hc
    simp only [List.mem_cons, List.not_mem_nil, or_false] at hc
    rcases hc with rfl | rfl <;> decide

/- ---------------------------------------------------------------------
   C10: null and empty lookup names
   --------------------------------------------------------------------- -/

/-- C10: GetIndexByName answers -1 (and GetItemByName null) for a null
pointer and for the empty string, even when some child's name is empty; and
no lookup whatsoever can return a child whose own name is empty. -/
theorem c10_empty_name_lookup (children : List Element) :
    GetIndexByName children none = -1 ∧
    GetIndexByName children (some "") = -1 ∧
    GetItemByName children none = none ∧
    GetItemByName children (some "") = none ∧
    (∀ (nm : Option String) (c : Element),
      GetItemByName children nm = some c → c.name ≠ "") := by
  refine ⟨rfl, by simp [GetIndexByName], by simp [GetItemByName,
    GetIndexByName, GetItemByIndex], by simp [GetItemByName, GetIndexByName,
    GetItemByIndex], ?_⟩
  intro nm c hsome
  cases nm with
  | none => simp [GetItemByName, GetIndexByName, GetItemByIndex] at hsome
  | some s =>
    by_cases hs : s = ""
    · subst hs
      simp [GetItemByName, GetIndexByName, GetItemByIndex] at hsome
    · rw [getItemByName_eq_find s hs children] at hsome
      have hmem := List.find?_some hsome
      have hcmp : GadgetStrCmp c.name s = 0 := by simpa using hmem
      rw [GadgetStrCmp_eq_zero_iff] at hcmp
      intro hname
      have hd : s.data = [] := by
        have : s.data.map asciiToLower = [] := by
          rw [← hcmp, hname]
          rfl
        simpa using this
      exact hs (by cases s; simpa using congrArg String.mk hd)

/-- Witness for C10: a collection whose only child has the empty name: both
the null and the empty lookup miss it, and indeed no lookup can produce it. -/
theorem c10_empty_name_lookup_witness :
    GetIndexByName [newElement 0 ""] none = -1 ∧
    GetIndexByName [newElement 0 ""] (some "") = -1 ∧
    GetItemByName [newElement 0 ""] (some "") = none ∧
    (GetItemByName [newElement 0 ""] (some "x") = some (newElement 0 "") →
      False) := by
  have h := c10_empty_name_lookup [newElement 0 ""]
  exact ⟨h.1, h.2.1, h.2.2.2.1, fun hx => (h.2.2.2.2 (some "x")
    (newElement 0 "") hx) rfl⟩

/- ---------------------------------------------------------------------
   C1: self-deleting handlers
   --------------------------------------------------------------------- -/

theorem mouseLoop_death (t : Trig) (ownerMap : Option (Element → Point → Point))
    (p : Point) :
    ∀ (l : List Element) (inE : Option Nat) (pr : Nat × MouseReply),
      pr ∈ (mouseLoop t ownerMap p l inE).invoked → pr.2.childDies = true →
      (mouseLoop t ownerMap p l inE).result = pr.2.result ∧
      (mouseLoop t ownerMap p l inE).invoked.getLast? = some pr := by
  intro l
  induction l with
  | nil => intro inE pr hpr _; simp [mouseLoop] at hpr
  | cons c rest ih =>
    intro inE pr hpr hdies
    by_cases hvis : c.visible = false
    · simpa [mouseLoop, hvis] using
        ih inE pr (by simpa [mouseLoop, hvis] using hpr) hdies
    · by_cases hhit : c.hit (MapChildPositionEvent t ownerMap c p) = false
      · simpa [mouseLoop, hvis, hhit] using
          ih inE pr (by simpa [mouseLoop, hvis, hhit] using hpr) hdies
      · by_cases hd : (c.onMouse (MapChildPositionEvent t ownerMap c p)).childDies
        · simp only [mouseLoop, if_neg hvis, if_neg hhit, if_pos hd] at hpr ⊢
          simp only [List.mem_singleton] at hpr
          subst hpr
          simp
        · by_cases hf :
            (c.onMouse (MapChildPositionEvent t ownerMap c p)).fired.isSome
          · simp only [mouseLoop, if_neg hvis, if_neg hhit, if_neg hd,
              if_pos hf] at hpr ⊢
            simp only [List.mem_singleton] at hpr
            subst hpr
            exact absurd hdies hd
          · simp only [mouseLoop, if_neg hvis, if_neg hhit, if_neg hd,
              if_neg hf] at hpr ⊢
            simp only [List.mem_cons] at hpr
            rcases hpr with rfl | hpr
            · exact absurd hdies hd
            · set inE1 := if inE = none then
                  some ((if (c.onMouse
                    (MapChildPositionEvent t ownerMap c p)).descendantDies
                    then none
                    else (c.onMouse
                      (MapChildPositionEvent t ownerMap c p)).inElt).getD c.id)
                else inE with hinE1
              obtain ⟨hres, hlast⟩ := ih inE1 pr hpr hdies
              refine ⟨hres, ?_⟩
              obtain ⟨q, qs, hq⟩ : ∃ q qs,
                  (mouseLoop t ownerMap p rest inE1).invoked = q :: qs := by
                cases hinv : (mouseLoop t ownerMap p rest inE1).invoked with
                | nil => rw [hinv] at hpr; simp at hpr
                | cons q qs => exact ⟨q, qs, rfl⟩
              rw [hq] at hlast ⊢
              simpa using hlast

theorem dragLoop_death (t : Trig) (ownerMap : Option (Element → Point → Point))
    (p : Point) :
    ∀ (l : List Element) (pr : Nat × DragReply),
      pr ∈ (dragLoop t ownerMap p l).invoked → pr.2.childDies = true →
      (dragLoop t ownerMap p l).result = pr.2.result ∧
      (dragLoop t ownerMap p l).invoked.getLast? = some pr := by
  intro l
  induction l with
  | nil => intro pr hpr _; simp [dragLoop] at hpr
  | cons c rest ih =>
    intro pr hpr hdies
    by_cases hvis : c.visible = false
    · simpa [dragLoop, hvis] using
        ih pr (by simpa [dragLoop, hvis] using hpr) hdies
    · by_cases hhit : c.hit (MapChildPositionEvent t ownerMap c p) = false
      · simpa [dragLoop, hvis, hhit] using
          ih pr (by simpa [dragLoop, hvis, hhit] using hpr) hdies
      · by_cases hstop : (c.onDrag (MapChildPositionEvent t ownerMap c p)).childDies
          || (c.onDrag (MapChildPositionEvent t ownerMap c p)).fired.isSome
        · simp only [dragLoop, if_neg hvis, if_neg hhit, if_pos hstop] at hpr ⊢
          simp only [List.mem_singleton] at hpr
          subst hpr
          simp
        · simp only [dragLoop, if_neg hvis, if_neg hhit, if_neg hstop] at hpr ⊢
          simp only [List.mem_cons] at hpr
          rcases hpr with rfl | hpr
          · refine absurd ?_ hstop
            have hcd : (c.onDrag
                (MapChildPositionEvent t ownerMap c p)).childDies = true :=
              hdies
            simp [hcd]
          · obtain ⟨hres, hlast⟩ := ih pr hpr hdies
            refine ⟨hres, ?_⟩
            obtain ⟨q, qs, hq⟩ : ∃ q qs,
                (dragLoop t ownerMap p rest).invoked = q :: qs := by
              cases hinv : (dragLoop t ownerMap p rest).invoked with
              | nil => rw [hinv] at hpr; simp at hpr
              | cons q qs => exact ⟨q, qs, rfl⟩
            rw [hq] at hlast ⊢
            simpa using hlast

/-- C1: during both mouse and drag dispatch, if the handler of some invoked
child destroyed that child (the scoped death detector registered with the
view nulled the local pointer during the nested call), then the dispatched
collection returns that handler's result immediately: the dying invocation is
the last one of the dispatch — no further child is examined, nothing more is
read off the destroyed element — and the dispatcher's result is exactly the
dying handler's result. -/
theorem c1_death_detector_aborts (t : Trig)
    (ownerMap : Option (Element → Point → Point)) (children : List Element)
    (p : Point) :
    (∀ pr ∈ (OnMouseEvent t ownerMap children p).invoked,
      pr.2.childDies = true →
      (OnMouseEvent t ownerMap children p).result = pr.2.result ∧
      (OnMouseEvent t ownerMap children p).invoked.getLast? = some pr) ∧
    (∀ pr ∈ (OnDragEvent t ownerMap children p).invoked,
      pr.2.childDies = true →
      (OnDragEvent t ownerMap children p).result = pr.2.result ∧
      (OnDragEvent t ownerMap children p).invoked.getLast? = some pr) := by
  exact ⟨fun pr hpr hd => mouseLoop_death t ownerMap p children.reverse none
      pr hpr hd,
    fun pr hpr hd => dragLoop_death t ownerMap p children.reverse pr hpr hd⟩

/-- The trigonometric instance used by concrete witnesses: rotation angles
play no role there, so the identity rotation values are used. -/
def wTrig : Trig := { cosD := fun _ => 1, sinD := fun _ => 0 }

/-- A concrete bottom child for dispatch witnesses: visible, containing every
point, handling the event. -/
def wChildLow : Element :=
  { newElement 0 "low" with
    hit := fun _ => true,
    onMouse := fun _ =>
      { result := .handled, fired := some 0, inElt := none,
        childDies := false, descendantDies := false },
    onDrag := fun _ =>
      { result := .handled, fired := some 0, childDies := false } }

/-- A concrete top child for dispatch witnesses: visible, containing every
point, and destroying itself inside its handler (the death detector nulls the
dispatcher's pointer during the nested call). -/
def wChildDies : Element :=
  { newElement 1 "top" with
    hit := fun _ => true,
    onMouse := fun _ =>
      { result := .handled, fired := none, inElt := none,
        childDies := true, descendantDies := false },
    onDrag := fun _ =>
      { result := .handled, fired := none, childDies := true } }

/-- Witness for C1: a two-child collection whose topmost child destroys
itself inside its mouse handler: the dispatch invokes only that handler and
returns its result; the lower sibling is never reached. -/
theorem c1_death_detector_aborts_witness :
    (((1 : Nat), wChildDies.onMouse ((0 : ℚ), (0 : ℚ))) ∈
      (OnMouseEvent wTrig none [wChildLow, wChildDies] (0, 0)).invoked) ∧
    (wChildDies.onMouse ((0 : ℚ), (0 : ℚ))).childDies = true ∧
    (OnMouseEvent wTrig none [wChildLow, wChildDies] (0, 0)).result =
      (wChildDies.onMouse ((0 : ℚ), (0 : ℚ))).result ∧
    (OnMouseEvent wTrig none [wChildLow, wChildDies] (0, 0)).invoked.getLast? =
      some ((1 : Nat), wChildDies.onMouse ((0 : ℚ), (0 : ℚ))) := by
  have hmem : ((1 : Nat), wChildDies.onMouse ((0 : ℚ), (0 : ℚ))) ∈
      (OnMouseEvent wTrig none [wChildLow, wChildDies] (0, 0)).invoked := by
    simp [OnMouseEvent, mouseLoop, wChildDies, wChildLow,
      MapChildPositionEvent, ParentCoordToChildCoord, newElement, wTrig]
  have h := (c1_death_detector_aborts wTrig none [wChildLow, wChildDies]
    (0, 0)).1 ((1 : Nat), wChildDies.onMouse ((0 : ℚ), (0 : ℚ))) hmem rfl
  exact ⟨hmem, rfl, h.1, h.2⟩

/- ---------------------------------------------------------------------
   C2: topmost-wins hit testing
   --------------------------------------------------------------------- -/

/-- The prefix of a list up to and including the first entry satisfying the
predicate (the whole list when no entry does). -/
def takeThrough {α : Type} (p : α → Bool) : List α → List α
  | [] => []
  | a :: as => if p a then [a] else a :: takeThrough p as

@[simp]
theorem takeThrough_nil {α : Type} (p : α → Bool) :
    takeThrough p [] = [] := rfl

theorem takeThrough_cons_pos {α : Type} (p : α → Bool) (a : α) (l : List α)
    (h : p a = true) : takeThrough p (a :: l) = [a] := by
  simp [takeThrough, h]

theorem takeThrough_cons_neg {α : Type} (p : α → Bool) (a : α) (l : List α)
    (h : p a = false) : takeThrough p (a :: l) = a :: takeThrough p l := by
  simp [takeThrough, h]

theorem mouseLoop_characterization (t : Trig)
    (ownerMap : Option (Element → Point → Point)) (p : Point) :
    ∀ (l : List Element) (inE : Option Nat),
      (∀ c ∈ l,
        (c.onMouse (MapChildPositionEvent t ownerMap c p)).childDies = false ∧
        ((c.onMouse (MapChildPositionEvent t ownerMap c p)).fired.isSome = true ↔
          (c.onMouse (MapChildPositionEvent t ownerMap c p)).result ≠
            EventResult.unhandled)) →
      (mouseLoop t ownerMap p l inE).invoked =
        (takeThrough
          (fun c => decide ((c.onMouse
            (MapChildPositionEvent t ownerMap c p)).result ≠
              EventResult.unhandled))
          (l.filter fun c =>
            c.visible && c.hit (MapChildPositionEvent t ownerMap c p))).map
          (fun c => (c.id, c.onMouse (MapChildPositionEvent t ownerMap c p))) ∧
      (mouseLoop t ownerMap p l inE).result =
        ((l.filter fun c =>
            c.visible && c.hit (MapChildPositionEvent t ownerMap c p)).find?
          (fun c => decide ((c.onMouse
            (MapChildPositionEvent t ownerMap c p)).result ≠
              EventResult.unhandled))).elim
          EventResult.unhandled
          (fun c => (c.onMouse (MapChildPositionEvent t ownerMap c p)).result) := by
  intro l
  induction l with
  | nil => intro inE _; simp [mouseLoop]
  | cons c rest ih =>
    intro inE hcoh
    have hc := hcoh c (List.mem_cons_self c rest)
    have hrest : ∀ d ∈ rest,
        (d.onMouse (MapChildPositionEvent t ownerMap d p)).childDies = false ∧
        ((d.onMouse (MapChildPositionEvent t ownerMap d p)).fired.isSome =
            true ↔
          (d.onMouse (MapChildPositionEvent t ownerMap d p)).result ≠
            EventResult.unhandled) :=
      fun d hd => hcoh d (List.mem_cons_of_mem c hd)
    by_cases hvis : c.visible = false
    · have hfil : (c :: rest).filter (fun c =>
          c.visible && c.hit (MapChildPositionEvent t ownerMap c p)) =
          rest.filter fun c =>
            c.visible && c.hit (MapChildPositionEvent t ownerMap c p) := by
        simp [List.filter_cons, hvis]
      rw [hfil]
      simpa [mouseLoop, hvis] using ih inE hrest
    · have hvis1 : c.visible = true := by simpa using hvis
      by_cases hhit : c.hit (MapChildPositionEvent t ownerMap c p) = false
      · have hfil : (c :: rest).filter (fun c =>
            c.visible && c.hit (MapChildPositionEvent t ownerMap c p)) =
            rest.filter fun c =>
              c.visible && c.hit (MapChildPositionEvent t ownerMap c p) := by
          simp [List.filter_cons, hvis1, hhit]
        rw [hfil]
        simpa [mouseLoop, hvis1, hhit] using ih inE hrest
      · have hhit1 : c.hit (MapChildPositionEvent t ownerMap c p) = true :=
          by simpa using hhit
        have hfil : (c :: rest).filter (fun c =>
            c.visible && c.hit (MapChildPositionEvent t ownerMap c p)) =
            c :: (rest.filter fun c =>
              c.visible && c.hit (MapChildPositionEvent t ownerMap c p)) := by
          simp [List.filter_cons, hvis1, hhit1]
        rw [hfil]
        by_cases hfires : (c.onMouse
            (MapChildPositionEvent t ownerMap c p)).result =
            EventResult.unhandled
        · have hnf : (c.onMouse
              (MapChildPositionEvent t ownerMap c p)).fired.isSome = false := by
            cases hfs : (c.onMouse
                (MapChildPositionEvent t ownerMap c p)).fired.isSome
            · rfl
            · exact absurd (hc.2.mp hfs) (by simp [hfires])
          constructor
          · conv_lhs => simp [mouseLoop, hvis1, hhit1, hc.1, hnf]
            rw [(ih _ hrest).1,
              takeThrough_cons_neg _ _ _ (by simp [hfires]), List.map_cons]
          · conv_lhs => simp [mouseLoop, hvis1, hhit1, hc.1, hnf]
            rw [(ih _ hrest).2, List.find?_cons_of_neg _ (by simp [hfires])]
        · have hf : (c.onMouse
              (MapChildPositionEvent t ownerMap c p)).fired.isSome = true :=
            hc.2.mpr hfires
          constructor
          · conv_lhs => simp [mouseLoop, hvis1, hhit1, hc.1, hf]
            rw [takeThrough_cons_pos _ _ _ (by simp [hfires])]
            simp
          · conv_lhs => simp [mouseLoop, hvis1, hhit1, hc.1, hf]
            rw [List.find?_cons_of_pos _ (by simp [hfires])]
            simp

/-- C2: under handlers that neither destroy their element (C1 covers that
case) nor set the fired element without handling — fired is reported exactly
when the result is not UNHANDLED — a mouse dispatch into a collection
examines children in reverse z-order (topmost first), skips invisible
children, remaps the event coordinates into each candidate child's local
space, invokes the handlers of the containing children from the top down
through the first one that handles, and returns that child's result (no
lower sibling is visited afterwards); a containing child answering UNHANDLED
lets the next lower sibling be tried, and when no child handles the event the
dispatch returns EVENT_RESULT_UNHANDLED. -/
theorem c2_topmost_wins (t : Trig)
    (ownerMap : Option (Element → Point → Point)) (children : List Element)
    (p : Point)
    (hcoh : ∀ c ∈ children,
      (c.onMouse (MapChildPositionEvent t ownerMap c p)).childDies = false ∧
      ((c.onMouse (MapChildPositionEvent t ownerMap c p)).fired.isSome = true ↔
        (c.onMouse (MapChildPositionEvent t ownerMap c p)).result ≠
          EventResult.unhandled)) :
    (OnMouseEvent t ownerMap children p).invoked =
      (takeThrough
        (fun c => decide ((c.onMouse
          (MapChildPositionEvent t ownerMap c p)).result ≠
            EventResult.unhandled))
        (children.reverse.filter fun c =>
          c.visible && c.hit (MapChildPositionEvent t ownerMap c p))).map
        (fun c => (c.id, c.onMouse (MapChildPositionEvent t ownerMap c p))) ∧
    (OnMouseEvent t ownerMap children p).result =
      ((children.reverse.filter fun c =>
          c.visible && c.hit (MapChildPositionEvent t ownerMap c p)).find?
        (fun c => decide ((c.onMouse
          (MapChildPositionEvent t ownerMap c p)).result ≠
            EventResult.unhandled))).elim
        EventResult.unhandled
        (fun c => (c.onMouse (MapChildPositionEvent t ownerMap c p)).result) :=
  mouseLoop_characterization t ownerMap p children.reverse none
    (fun c hc => hcoh c (List.mem_reverse.mp hc))

/-- A concrete top child for the C2 witness: visible, containing every
point, but leaving the event unhandled (and not setting the fired element),
so the lower sibling gets its chance. -/
def wChildUnhandled : Element :=
  { newElement 2 "pass" with
    hit := fun _ => true,
    onMouse := fun _ =>
      { result := .unhandled, fired := none, inElt := none,
        childDies := false, descendantDies := false },
    onDrag := fun _ =>
      { result := .unhandled, fired := none, childDies := false } }

/-- Witness for C2: overlapping siblings low (inserted first) and pass
(inserted second, on top): pass is tried first; it answers UNHANDLED, so low
is tried next and its handled result is returned; both invocations appear in
order in the trace. -/
theorem c2_topmost_wins_witness :
    (∀ c ∈ [wChildLow, wChildUnhandled],
      (c.onMouse (MapChildPositionEvent wTrig none c (0, 0))).childDies =
        false ∧
      ((c.onMouse (MapChildPositionEvent wTrig none c (0, 0))).fired.isSome =
          true ↔
        (c.onMouse (MapChildPositionEvent wTrig none c (0, 0))).result ≠
          EventResult.unhandled)) ∧
    (OnMouseEvent wTrig none [wChildLow, wChildUnhandled] (0, 0)).result =
      EventResult.handled ∧
    (OnMouseEvent wTrig none [wChildLow, wChildUnhandled] (0, 0)).invoked =
      [(2, wChildUnhandled.onMouse (MapChildPositionEvent wTrig none
        wChildUnhandled (0, 0))),
       (0, wChildLow.onMouse (MapChildPositionEvent wTrig none
         wChildLow (0, 0)))] := by
  have hcoh : ∀ c ∈ [wChildLow, wChildUnhandled],
      (c.onMouse (MapChildPositionEvent wTrig none c (0, 0))).childDies =
        false ∧
      ((c.onMouse (MapChildPositionEvent wTrig none c (0, 0))).fired.isSome =
          true ↔
        (c.onMouse (MapChildPositionEvent wTrig none c (0, 0))).result ≠
          EventResult.unhandled) := by
    intro c hc
    simp only [List.mem_cons, List.not_mem_nil, or_false] at hc
    rcases hc with rfl | rfl
    · exact ⟨rfl, by simp [wChildLow]⟩
    · exact ⟨rfl, by simp [wChildUnhandled]⟩
  have h := c2_topmost_wins wTrig none [wChildLow, wChildUnhandled] (0, 0) hcoh
  refine ⟨hcoh, ?_, ?_⟩
  · rw [h.2]
    rfl
  · rw [h.1]
    rfl

/- ---------------------------------------------------------------------
   Draw loop lemmas
   --------------------------------------------------------------------- -/

theorem drawChildStep_changed_mono (popup : Option Nat)
    (acc : List Element × List (Option Canvas) × Bool × Bool) (c : Element)
    (h : acc.2.2.1 = true) : (drawChildStep popup acc c).2.2.1 = true := by
  rcases acc with ⟨cs, cvs, ch, hp⟩
  simp only at h
  subst h
  by_cases hpop : popup = some c.id <;> cases hp <;>
    cases hcp : c.posChanged <;>
      simp [drawChildStep, elementDraw, hpop, hcp]

theorem drawLoop_changed_mono (popup : Option Nat) :
    ∀ (l : List Element) (acc : List Element × List (Option Canvas) × Bool × Bool),
      acc.2.2.1 = true →
      (l.foldl (drawChildStep popup) acc).2.2.1 = true := by
  intro l
  induction l with
  | nil => intro acc h; simpa using h
  | cons c cs ih =>
    intro acc h
    exact ih _ (drawChildStep_changed_mono popup acc c h)

theorem drawLoop_children_length (popup : Option Nat) :
    ∀ (l : List Element) (acc : List Element × List (Option Canvas) × Bool × Bool),
      (l.foldl (drawChildStep popup) acc).1.length = acc.1.length + l.length := by
  intro l
  induction l with
  | nil => intro acc; simp
  | cons c cs ih =>
    intro acc
    have hstep : (drawChildStep popup acc c).1.length = acc.1.length + 1 := by
      simp [drawChildStep]
    calc (List.foldl (drawChildStep popup) (drawChildStep popup acc c) cs).1.length
        = (drawChildStep popup acc c).1.length + cs.length := ih _
      _ = acc.1.length + (c :: cs).length := by rw [hstep]; simp; omega

theorem drawLoop_clears (popup : Option Nat) :
    ∀ (l : List Element) (acc : List Element × List (Option Canvas) × Bool × Bool),
      (∀ c ∈ l, popup ≠ some c.id) →
      (∀ c ∈ acc.1, popup ≠ some c.id ∧ c.posChanged = false ∧
        c.contentChanged = false ∧ c.sizeChanged = false) →
      ∀ c ∈ (l.foldl (drawChildStep popup) acc).1,
        popup ≠ some c.id ∧ c.posChanged = false ∧
          c.contentChanged = false ∧ c.sizeChanged = false := by
  intro l
  induction l with
  | nil => intro acc _ hacc; simpa using hacc
  | cons c cs ih =>
    intro acc hl hacc
    have hc : popup ≠ some c.id := hl c (List.mem_cons_self c cs)
    refine ih _ (fun d hd => hl d (List.mem_cons_of_mem c hd)) ?_
    intro d hd
    by_cases hcp : c.posChanged = true
    · have hdm : d ∈ acc.1 ∨ d = { c with contentChanged := false, sizeChanged := false, posChanged := false } := by
        simpa [drawChildStep, elementDraw, hc, hcp, List.mem_append] using hd
      rcases hdm with hdm | hdm
      · exact hacc d hdm
      · subst hdm; simp [hc]
    · have hcp2 : c.posChanged = false := by simpa using hcp
      have hdm : d ∈ acc.1 ∨ d = { c with contentChanged := false, sizeChanged := false } := by
        simpa [drawChildStep, elementDraw, hc, hcp2, List.mem_append] using hd
      rcases hdm with hdm | hdm
      · exact hacc d hdm
      · subst hdm; simp [hc, hcp2]

theorem drawLoop_hasPopup_false (popup : Option Nat) :
    ∀ (l : List Element) (acc : List Element × List (Option Canvas) × Bool × Bool),
      (∀ c ∈ l, popup ≠ some c.id) → l ≠ [] →
      (l.foldl (drawChildStep popup) acc).2.2.2 = false := by
  intro l
  induction l with
  | nil => intro acc _ h; exact absurd rfl h
  | cons c cs ih =>
    intro acc hpop _
    have hc : popup ≠ some c.id := hpop c (List.mem_cons_self c cs)
    by_cases hcs : cs = []
    · subst hcs
      rcases acc with ⟨cs0, cvs0, ch0, hp0⟩
      cases hp0 <;> cases hcp : c.posChanged <;>
        simp [drawChildStep, elementDraw, hc, hcp]
    · exact ih _ (fun d hd => hpop d (List.mem_cons_of_mem c hd)) hcs

theorem drawLoop_nochange (popup : Option Nat) :
    ∀ (l : List Element) (acc : List Element × List (Option Canvas) × Bool × Bool),
      (∀ c ∈ l, popup ≠ some c.id ∧ c.posChanged = false ∧
        c.contentChanged = false ∧ c.sizeChanged = false) →
      acc.2.2.1 = false → acc.2.2.2 = false →
      (l.foldl (drawChildStep popup) acc).2.2.1 = false ∧
      (l.foldl (drawChildStep popup) acc).2.2.2 = false := by
  intro l
  induction l with
  | nil => intro acc _ h1 h2; simpa [h1] using h2
  | cons c cs ih =>
    intro acc hl h1 h2
    have hc := hl c (List.mem_cons_self c cs)
    rcases acc with ⟨cs0, cvs0, ch0, hp0⟩
    simp only at h1 h2
    subst h1; subst h2
    refine ih _ (fun d hd => hl d (List.mem_cons_of_mem c hd)) ?_ ?_ <;>
      simp [drawChildStep, elementDraw, hc.1, hc.2.1, hc.2.2.1, hc.2.2.2]

theorem drawChildStep_changed_of_flag (popup : Option Nat)
    (acc : List Element × List (Option Canvas) × Bool × Bool) (c : Element)
    (hpop : popup ≠ some c.id)
    (hflag : c.posChanged = true ∨ c.sizeChanged = true ∨
      c.contentChanged = true) :
    (drawChildStep popup acc c).2.2.1 = true := by
  rcases acc with ⟨cs0, cvs0, ch0, hp0⟩
  rcases hflag with h | h | h
  · cases hp0 <;> simp [drawChildStep, elementDraw, hpop, h]
  · cases hp0 <;> cases hcp : c.posChanged <;>
      simp [drawChildStep, elementDraw, hpop, h, hcp]
  · cases hp0 <;> cases hcp : c.posChanged <;>
      simp [drawChildStep, elementDraw, hpop, h, hcp]

theorem drawLoop_changed_of_flag (popup : Option Nat) :
    ∀ (l : List Element) (acc : List Element × List (Option Canvas) × Bool × Bool),
      (∃ c ∈ l, popup ≠ some c.id ∧ (c.posChanged = true ∨
        c.sizeChanged = true ∨ c.contentChanged = true)) →
      (l.foldl (drawChildStep popup) acc).2.2.1 = true := by
  intro l
  induction l with
  | nil => intro acc h; simp at h
  | cons c cs ih =>
    intro acc hex
    rcases hex with ⟨d, hd, hdp, hdf⟩
    rcases List.mem_cons.mp hd with rfl | hd
    · exact drawLoop_changed_mono popup cs _
        (drawChildStep_changed_of_flag popup acc d hdp hdf)
    · exact ih _ ⟨d, hd, hdp, hdf⟩

theorem Draw_eq_drawMain_of_dimsOk (popup : Option Nat) (st : ElementsImpl)
    (cv : Canvas) (hne : st.children.isEmpty = false) (hcv : st.canvas = some cv)
    (hw : cv.width = (Int.ceil st.width).toNat)
    (hh : cv.height = (Int.ceil st.height).toNat) :
    Draw popup st = drawMain popup { st with countChanged := false }
      st.countChanged := by
  simp [Draw, hne, hcv, hw, hh]

theorem Draw_eq_drawMain_realloc (popup : Option Nat) (st : ElementsImpl)
    (hne : st.children.isEmpty = false)
    (hdim : st.canvas = none ∨ ∃ cv, st.canvas = some cv ∧
      ¬(cv.width = (Int.ceil st.width).toNat ∧
        cv.height = (Int.ceil st.height).toNat))
    (hw : (Int.ceil st.width).toNat ≠ 0)
    (hh : (Int.ceil st.height).toNat ≠ 0) :
    Draw popup st = drawMain popup
      { st with countChanged := false,
                canvas := some ⟨st.nextCanvasId, (Int.ceil st.width).toNat,
                  (Int.ceil st.height).toNat⟩,
                nextCanvasId := st.nextCanvasId + 1 } true := by
  rcases hdim with hcv | ⟨cv, hcv, hdim⟩
  · simp [Draw, hne, hcv, hw, hh]
  · have hbeq : ((Int.ceil st.width).toNat == cv.width &&
        (Int.ceil st.height).toNat == cv.height) = false := by
      by_cases h1 : (Int.ceil st.width).toNat = cv.width
      · by_cases h2 : (Int.ceil st.height).toNat = cv.height
        · exact absurd ⟨h1.symm, h2.symm⟩ hdim
        · simp [h1, h2]
      · simp [h1]
    simp [Draw, hne, hcv, hbeq, hw, hh]

/-- After one Draw on a nonempty collection with nonzero computed pixel
dimensions and no popup child, the state is normalised: intended size and
countChanged consumed, hasPopup settled, every child's dirty flags consumed,
and the cached canvas has exactly the computed pixel dimensions and is the
returned surface. -/
theorem Draw_normalizes (popup : Option Nat) (st : ElementsImpl)
    (hne : st.children ≠ [])
    (hpop : ∀ c ∈ st.children, popup ≠ some c.id)
    (hw : (Int.ceil st.width).toNat ≠ 0)
    (hh : (Int.ceil st.height).toNat ≠ 0) :
    (Draw popup st).state.width = st.width ∧
    (Draw popup st).state.height = st.height ∧
    (Draw popup st).state.countChanged = false ∧
    (Draw popup st).state.children ≠ [] ∧
    (∀ c ∈ (Draw popup st).state.children, popup ≠ some c.id ∧
      c.posChanged = false ∧ c.contentChanged = false ∧
      c.sizeChanged = false) ∧
    (Draw popup st).state.hasPopup = false ∧
    (Draw popup st).state.nextCanvasId = (Draw popup st).state.nextCanvasId ∧
    (∃ cv : Canvas, (Draw popup st).state.canvas = some cv ∧
      cv.width = (Int.ceil st.width).toNat ∧
      cv.height = (Int.ceil st.height).toNat ∧
      (Draw popup st).ret = some cv) := by
  have hemp : st.children.isEmpty = false := by
    cases hch : st.children
    · exact absurd hch hne
    · rfl
  have hmain : ∀ (st2 : ElementsImpl) (ch0 : Bool), st2.children = st.children →
      (drawMain popup st2 ch0).state.children ≠ [] ∧
      (∀ c ∈ (drawMain popup st2 ch0).state.children, popup ≠ some c.id ∧
        c.posChanged = false ∧ c.contentChanged = false ∧
        c.sizeChanged = false) ∧
      (drawMain popup st2 ch0).state.hasPopup = false := by
    intro st2 ch0 hch
    refine ⟨?_, ?_, ?_⟩
    · have hlen := drawLoop_children_length popup st2.children
        ([], [], ch0, st2.hasPopup)
      intro hnil
      rw [show (drawMain popup st2 ch0).state.children =
        (st2.children.foldl (drawChildStep popup)
          ([], [], ch0, st2.hasPopup)).1 from rfl] at hnil
      rw [hnil] at hlen
      simp [hch] at hlen
      exact hne (List.eq_nil_of_length_eq_zero hlen.symm)
    · intro c hc
      refine drawLoop_clears popup st2.children ([], [], ch0, st2.hasPopup)
        (by rw [hch]; exact hpop) (by simp) c hc
    · exact drawLoop_hasPopup_false popup st2.children
        ([], [], ch0, st2.hasPopup) (by rw [hch]; exact hpop)
        (by rw [hch]; exact hne)
  rcases hcv : st.canvas with _ | cv
  · rw [Draw_eq_drawMain_realloc popup st hemp (Or.inl hcv) hw hh]
    obtain ⟨h1, h2, h3⟩ := hmain _ true rfl
    exact ⟨rfl, rfl, rfl, h1, h2, h3, rfl,
      ⟨_, rfl, rfl, rfl, rfl⟩⟩
  · by_cases hdim : cv.width = (Int.ceil st.width).toNat ∧
        cv.height = (Int.ceil st.height).toNat
    · rw [Draw_eq_drawMain_of_dimsOk popup st cv hemp hcv hdim.1 hdim.2]
      obtain ⟨h1, h2, h3⟩ := hmain _ st.countChanged rfl
      exact ⟨rfl, rfl, rfl, h1, h2, h3, rfl,
        ⟨cv, by simp [drawMain, hcv], hdim.1, hdim.2, by simp [drawMain, hcv]⟩⟩
    · rw [Draw_eq_drawMain_realloc popup st hemp (Or.inr ⟨cv, hcv, hdim⟩) hw hh]
      obtain ⟨h1, h2, h3⟩ := hmain _ true rfl
      exact ⟨rfl, rfl, rfl, h1, h2, h3, rfl,
        ⟨_, rfl, rfl, rfl, rfl⟩⟩

/- ---------------------------------------------------------------------
   C6: recompositing idempotence
   --------------------------------------------------------------------- -/

/-- C6 (amended): calling Draw twice in a row with no intervening mutation
reports changed=false on the second call, runs no compositing pass, returns
the same surface as the first call, and neither destroys nor reallocates the
cached canvas — provided the computed pixel dimensions are nonzero and no
child is the view's current popup element (with zero dimensions no cached
canvas can exist and every call reports changed=true; a popup child flips the
has_popup_ member back and forth between consecutive draws). -/
theorem c6_draw_idempotent (popup : Option Nat) (st : ElementsImpl)
    (hpop : ∀ c ∈ st.children, popup ≠ some c.id)
    (hw : (Int.ceil st.width).toNat ≠ 0)
    (hh : (Int.ceil st.height).toNat ≠ 0) :
    (Draw popup (Draw popup st).state).changed = false ∧
    (Draw popup (Draw popup st).state).composited = false ∧
    (Draw popup (Draw popup st).state).ret = (Draw popup st).ret ∧
    (Draw popup (Draw popup st).state).state.canvas =
      (Draw popup st).state.canvas ∧
    (Draw popup (Draw popup st).state).state.nextCanvasId =
      (Draw popup st).state.nextCanvasId := by
  by_cases hne : st.children = []
  · simp [Draw, hne]
  · obtain ⟨hwid, hhei, hcnt, hne2, hflags, hpopup2, -, cv, hcv, hcw, hchh,
      hret⟩ := Draw_normalizes popup st hne hpop hw hh
    set st1 := (Draw popup st).state with hst1
    have hemp1 : st1.children.isEmpty = false := by
      cases hch1 : st1.children
      · exact absurd hch1 hne2
      · rfl
    have heq : Draw popup st1 =
        drawMain popup { st1 with countChanged := false } st1.countChanged :=
      Draw_eq_drawMain_of_dimsOk popup st1 cv hemp1 hcv
        (by rw [hwid]; exact hcw) (by rw [hhei]; exact hchh)
    rw [heq, hcnt]
    have hloop := drawLoop_nochange popup st1.children
      ([], [], false, st1.hasPopup) (fun c hc => hflags c hc) rfl hpopup2
    simp only [drawMain]
    refine ⟨hloop.1, hloop.1, ?_, ?_, ?_⟩
    · show st1.canvas = (Draw popup st).ret
      rw [hcv, hret]
    · first
      | rfl
      | trivial
    · first
      | rfl
      | trivial

/-- A normal, flag-free single-child draw state used by the C6 witness. -/
def wDrawState : ElementsImpl :=
  { children := [newElement 0 "a"], width := 4, height := 3, canvas := none,
    countChanged := true, hasPopup := false, scrollable := false,
    nextId := 1, nextCanvasId := 5 }

/-- Witness for C6 at a concrete collection: one child, computed dimensions
4 by 3, no popup: the second of two consecutive draws reports changed=false
and hands back the canvas of the first call. -/
theorem c6_draw_idempotent_witness :
    (∀ c ∈ wDrawState.children, (none : Option Nat) ≠ some c.id) ∧
    (Int.ceil wDrawState.width).toNat ≠ 0 ∧
    (Int.ceil wDrawState.height).toNat ≠ 0 ∧
    (Draw none (Draw none wDrawState).state).changed = false ∧
    (Draw none (Draw none wDrawState).state).ret =
      (Draw none wDrawState).ret ∧
    (Draw none (Draw none wDrawState).state).state.nextCanvasId =
      (Draw none wDrawState).state.nextCanvasId := by
  have hpop : ∀ c ∈ wDrawState.children, (none : Option Nat) ≠ some c.id := by
    intro c _
    simp
  have hw : (Int.ceil wDrawState.width).toNat ≠ 0 := by decide
  have hh : (Int.ceil wDrawState.height).toNat ≠ 0 := by decide
  have h := c6_draw_idempotent none wDrawState hpop hw hh
  exact ⟨hpop, hw, hh, h.1, h.2.2.1, h.2.2.2.2⟩

/-- A single-child draw state with computed pixel dimensions zero: no cached
canvas can exist, so every Draw on it reports changed=true. -/
def wZeroDimState : ElementsImpl :=
  { children := [newElement 0 "a"], width := 0, height := 0, canvas := none,
    countChanged := false, hasPopup := false, scrollable := false,
    nextId := 1, nextCanvasId := 0 }

/-- Counterexample to C6 as stated: on a nonempty collection whose computed
pixel dimensions are zero (reachable, e.g. a scrollable collection whose only
child has zero size), the second of two consecutive draws with no intervening
mutation still reports changed=true, not false. -/
theorem c6_draw_idempotent_cex :
    (Draw none (Draw none wZeroDimState).state).changed = true := by
  rfl

/- ---------------------------------------------------------------------
   C7: cache invalidation
   --------------------------------------------------------------------- -/

theorem drawLoop_clears_pos (popup : Option Nat) :
    ∀ (l : List Element) (acc : List Element × List (Option Canvas) × Bool × Bool),
      (∀ c ∈ acc.1, popup ≠ some c.id → c.posChanged = false) →
      ∀ c ∈ (l.foldl (drawChildStep popup) acc).1,
        popup ≠ some c.id → c.posChanged = false := by
  intro l
  induction l with
  | nil => intro acc hacc; simpa using hacc
  | cons c cs ih =>
    intro acc hacc
    refine ih _ ?_
    intro d hd hdpop
    by_cases hpopc : popup = some c.id
    · have hdm : d ∈ acc.1 ∨ d = c := by
        simpa [drawChildStep, hpopc, List.mem_append] using hd
      rcases hdm with hdm | hdm
      · exact hacc d hdm hdpop
      · subst hdm
        exact absurd hpopc hdpop
    · by_cases hcp : c.posChanged = true
      · have hdm : d ∈ acc.1 ∨ d = { c with contentChanged := false, sizeChanged := false, posChanged := false } := by
          simpa [drawChildStep, elementDraw, hpopc, hcp, List.mem_append]
            using hd
        rcases hdm with hdm | hdm
        · exact hacc d hdm hdpop
        · subst hdm; rfl
      · have hcp2 : c.posChanged = false := by simpa using hcp
        have hdm : d ∈ acc.1 ∨ d = { c with contentChanged := false, sizeChanged := false } := by
          simpa [drawChildStep, elementDraw, hpopc, hcp2, List.mem_append]
            using hd
        rcases hdm with hdm | hdm
        · exact hacc d hdm hdpop
        · subst hdm; exact hcp2

/-- C7 (amended): when any non-popup child carries a position or size dirty
flag, or the child count changed, or the computed pixel dimensions differ
from the cached canvas's (or no cached canvas exists), the very next Draw
reports changed=true and re-runs the compositing pass, and afterwards every
drawn (non-popup) child's position-changed flag is cleared — provided the
collection is nonempty and the computed pixel dimensions are nonzero (with
zero dimensions Draw reports the change but returns early, compositing
nothing and clearing no flag). -/
theorem c7_cache_invalidation (popup : Option Nat) (st : ElementsImpl)
    (hne : st.children ≠ [])
    (hw : (Int.ceil st.width).toNat ≠ 0)
    (hh : (Int.ceil st.height).toNat ≠ 0)
    (htrig : st.countChanged = true ∨ st.canvas = none ∨
      (∃ cv, st.canvas = some cv ∧
        ¬(cv.width = (Int.ceil st.width).toNat ∧
          cv.height = (Int.ceil st.height).toNat)) ∨
      (∃ c ∈ st.children, popup ≠ some c.id ∧
        (c.posChanged = true ∨ c.sizeChanged = true))) :
    (Draw popup st).changed = true ∧
    (Draw popup st).composited = true ∧
    (∀ c ∈ (Draw popup st).state.children,
      popup ≠ some c.id → c.posChanged = false) := by
  have hemp : st.children.isEmpty = false := by
    cases hch : st.children
    · exact absurd hch hne
    · rfl
  rcases hcv : st.canvas with _ | cv
  · rw [Draw_eq_drawMain_realloc popup st hemp (Or.inl hcv) hw hh]
    simp only [drawMain]
    exact ⟨drawLoop_changed_mono popup st.children _ rfl,
      drawLoop_changed_mono popup st.children _ rfl,
      drawLoop_clears_pos popup st.children _ (by simp)⟩
  · by_cases hdim : cv.width = (Int.ceil st.width).toNat ∧
        cv.height = (Int.ceil st.height).toNat
    · rw [Draw_eq_drawMain_of_dimsOk popup st cv hemp hcv hdim.1 hdim.2]
      have hch : (st.children.foldl (drawChildStep popup)
          ([], [], st.countChanged, st.hasPopup)).2.2.1 = true := by
        rcases htrig with hcount | hnone | ⟨cv2, hcv2, hdim2⟩ | hflag
        · rw [hcount]
          exact drawLoop_changed_mono popup st.children _ rfl
        · rw [hcv] at hnone
          cases hnone
        · rw [hcv] at hcv2
          injection hcv2 with hcv2
          exact absurd (hcv2 ▸ hdim) hdim2
        · rcases hflag with ⟨c, hc, hcpop, hcflag⟩
          have hcflag3 : c.posChanged = true ∨ c.sizeChanged = true ∨
              c.contentChanged = true := by
            rcases hcflag with h | h
            · exact Or.inl h
            · exact Or.inr (Or.inl h)
          exact drawLoop_changed_of_flag popup st.children _
            ⟨c, hc, hcpop, hcflag3⟩
      simp only [drawMain]
      exact ⟨hch, hch, drawLoop_clears_pos popup st.children _ (by simp)⟩
    · rw [Draw_eq_drawMain_realloc popup st hemp (Or.inr ⟨cv, hcv, hdim⟩) hw hh]
      simp only [drawMain]
      exact ⟨drawLoop_changed_mono popup st.children _ rfl,
        drawLoop_changed_mono popup st.children _ rfl,
        drawLoop_clears_pos popup st.children _ (by simp)⟩

/-- A single-child draw state whose child carries the position dirty flag,
with valid 4 by 3 computed dimensions, used by the C7 witness. -/
def wDirtyState : ElementsImpl :=
  { children := [{ newElement 0 "a" with posChanged := true }], width := 4,
    height := 3, canvas := none, countChanged := false, hasPopup := false,
    scrollable := false, nextId := 1, nextCanvasId := 0 }

/-- Witness for C7 at a concrete collection: a dirty (moved) child makes the
very next Draw report changed, run compositing, and clear the flag. -/
theorem c7_cache_invalidation_witness :
    wDirtyState.children ≠ [] ∧
    (Int.ceil wDirtyState.width).toNat ≠ 0 ∧
    (Int.ceil wDirtyState.height).toNat ≠ 0 ∧
    (∃ c ∈ wDirtyState.children, (none : Option Nat) ≠ some c.id ∧
      (c.posChanged = true ∨ c.sizeChanged = true)) ∧
    (Draw none wDirtyState).changed = true ∧
    (Draw none wDirtyState).composited = true ∧
    (∀ c ∈ (Draw none wDirtyState).state.children,
      (none : Option Nat) ≠ some c.id → c.posChanged = false) := by
  have hne : wDirtyState.children ≠ [] := by simp [wDirtyState]
  have hw : (Int.ceil wDirtyState.width).toNat ≠ 0 := by decide
  have hh : (Int.ceil wDirtyState.height).toNat ≠ 0 := by decide
  have hex : ∃ c ∈ wDirtyState.children, (none : Option Nat) ≠ some c.id ∧
      (c.posChanged = true ∨ c.sizeChanged = true) :=
    ⟨{ newElement 0 "a" with posChanged := true }, by simp [wDirtyState],
      by simp, Or.inl rfl⟩
  have h := c7_cache_invalidation none wDirtyState hne hw hh
    (Or.inr (Or.inr (Or.inr hex)))
  exact ⟨hne, hw, hh, hex, h.1, h.2.1, h.2.2⟩

/-- A dirty single-child draw state whose computed pixel dimensions are
zero. -/
def wZeroDirtyState : ElementsImpl :=
  { children := [{ newElement 0 "a" with posChanged := true }], width := 0,
    height := 0, canvas := none, countChanged := false, hasPopup := false,
    scrollable := false, nextId := 1, nextCanvasId := 0 }

/-- Counterexample to C7 as stated: on a nonempty collection with a dirty
child but zero computed pixel dimensions, Draw reports changed=true but runs
no compositing pass and leaves the child's position-changed flag set. -/
theorem c7_cache_invalidation_cex :
    (Draw none wZeroDirtyState).changed = true ∧
    (Draw none wZeroDirtyState).composited = false ∧
    (Draw none wZeroDirtyState).state.children.all
      (fun c => c.posChanged) = true := by
  exact ⟨rfl, rfl, rfl⟩

/- ---------------------------------------------------------------------
   C8: layout extent
   --------------------------------------------------------------------- -/

theorem abs_sub_le_max (cx pinX w : ℚ) (h0 : 0 ≤ cx) (hw : cx ≤ w) :
    |cx - pinX| ≤ max pinX (w - pinX) := by
  rw [abs_le]
  constructor
  · have := le_max_left pinX (w - pinX)
    linarith
  · have := le_max_right pinX (w - pinX)
    linarith

theorem mul_term_le (a d maxv : ℚ) (ha : |a| ≤ 1) (hd : |d| ≤ maxv) :
    a * d ≤ maxv := by
  calc a * d ≤ |a * d| := le_abs_self _
    _ = |a| * |d| := abs_mul a d
    _ ≤ 1 * maxv := mul_le_mul ha hd (abs_nonneg d) zero_le_one
    _ = maxv := one_mul maxv

theorem corner_le_x (x cosv sinv pinX pinY w h cx cy : ℚ)
    (hcos : |cosv| ≤ 1) (hsin : |sinv| ≤ 1)
    (hcx0 : 0 ≤ cx) (hcxw : cx ≤ w) (hcy0 : 0 ≤ cy) (hcyh : cy ≤ h) :
    x + cosv * (cx - pinX) - sinv * (cy - pinY) ≤
      x + (max pinX (w - pinX) + max pinY (h - pinY)) := by
  have h1 : cosv * (cx - pinX) ≤ max pinX (w - pinX) :=
    mul_term_le _ _ _ hcos (abs_sub_le_max cx pinX w hcx0 hcxw)
  have h2 : -sinv * (cy - pinY) ≤ max pinY (h - pinY) := by
    refine mul_term_le _ _ _ ?_ (abs_sub_le_max cy pinY h hcy0 hcyh)
    rw [abs_neg]
    exact hsin
  linarith

theorem corner_le_y (y cosv sinv pinX pinY w h cx cy : ℚ)
    (hcos : |cosv| ≤ 1) (hsin : |sinv| ≤ 1)
    (hcx0 : 0 ≤ cx) (hcxw : cx ≤ w) (hcy0 : 0 ≤ cy) (hcyh : cy ≤ h) :
    y + sinv * (cx - pinX) + cosv * (cy - pinY) ≤
      y + (max pinX (w - pinX) + max pinY (h - pinY)) := by
  have h1 : sinv * (cx - pinX) ≤ max pinX (w - pinX) :=
    mul_term_le _ _ _ hsin (abs_sub_le_max cx pinX w hcx0 hcxw)
  have h2 : cosv * (cy - pinY) ≤ max pinY (h - pinY) :=
    mul_term_le _ _ _ hcos (abs_sub_le_max cy pinY h hcy0 hcyh)
  linarith

/-- The cheap estimate of UpdateChildExtent really bounds the child's actual
rotated extent, which is what justifies the source's skip-if-smaller
shortcut. -/
theorem childExtent_le_est (t : Trig) (ht : t.Bounded) (c : Element)
    (hw : 0 ≤ c.width) (hh : 0 ≤ c.height) :
    (GetChildExtentInParent t c.x c.y c.pinX c.pinY c.width c.height
      c.rotation).1 ≤
      c.x + (max c.pinX (c.width - c.pinX) +
        max c.pinY (c.height - c.pinY)) ∧
    (GetChildExtentInParent t c.x c.y c.pinX c.pinY c.width c.height
      c.rotation).2 ≤
      c.y + (max c.pinX (c.width - c.pinX) +
        max c.pinY (c.height - c.pinY)) := by
  obtain ⟨hcos, hsin⟩ := ht c.rotation
  constructor
  · refine max_le (max_le ?_ ?_) (max_le ?_ ?_) <;>
      exact corner_le_x c.x _ _ c.pinX c.pinY c.width c.height _ _ hcos hsin
        (by linarith) (by linarith) (by linarith) (by linarith)
  · refine max_le (max_le ?_ ?_) (max_le ?_ ?_) <;>
      exact corner_le_y c.y _ _ c.pinX c.pinY c.width c.height _ _ hcos hsin
        (by linarith) (by linarith) (by linarith) (by linarith)

theorem ite_gt_eq_max (p q : ℚ) : (if q > p then q else p) = max p q := by
  rcases le_or_lt q p with h | h
  · rw [if_neg (not_lt.mpr h), max_eq_left h]
  · rw [if_pos h, max_eq_right (le_of_lt h)]

/-- UpdateChildExtent computes exactly the pointwise maximum of the running
extent and the child's actual extent: the estimation shortcut changes
nothing, because the estimate dominates the actual extent. -/
theorem UpdateChildExtent_eq_max (t : Trig) (ht : t.Bounded) (c : Element)
    (hw : 0 ≤ c.width) (hh : 0 ≤ c.height) (e1 e2 : ℚ) :
    UpdateChildExtent t c (e1, e2) = boundingStep t (e1, e2) c := by
  obtain ⟨hle1, hle2⟩ := childExtent_le_est t ht c hw hh
  by_cases hcond : c.x + (max c.pinX (c.width - c.pinX) +
      max c.pinY (c.height - c.pinY)) > e1 ∨
      c.y + (max c.pinX (c.width - c.pinX) +
        max c.pinY (c.height - c.pinY)) > e2
  · simp only [UpdateChildExtent, boundingStep, if_pos hcond]
    rw [ite_gt_eq_max, ite_gt_eq_max]
  · simp only [UpdateChildExtent, boundingStep, if_neg hcond]
    push_neg at hcond
    rw [max_eq_left (le_trans hle1 hcond.1), max_eq_left (le_trans hle2 hcond.2)]

theorem foldl_update_eq_bounding (t : Trig) (ht : t.Bounded) :
    ∀ (l : List Element), (∀ c ∈ l, 0 ≤ c.width ∧ 0 ≤ c.height) →
      ∀ (e1 e2 : ℚ),
        l.foldl (fun acc c => UpdateChildExtent t c acc) (e1, e2) =
          l.foldl (boundingStep t) (e1, e2) := by
  intro l
  induction l with
  | nil => intro _ e1 e2; rfl
  | cons c cs ih =>
    intro hgeom e1 e2
    have hc := hgeom c (List.mem_cons_self c cs)
    have hstep := UpdateChildExtent_eq_max t ht c hc.1 hc.2 e1 e2
    calc (c :: cs).foldl (fun acc c => UpdateChildExtent t c acc) (e1, e2)
        = cs.foldl (fun acc c => UpdateChildExtent t c acc)
            (UpdateChildExtent t c (e1, e2)) := rfl
      _ = cs.foldl (fun acc c => UpdateChildExtent t c acc)
            (boundingStep t (e1, e2) c) := by rw [hstep]
      _ = cs.foldl (boundingStep t) (boundingStep t (e1, e2) c) := by
            rcases hb : boundingStep t (e1, e2) c with ⟨b1, b2⟩
            exact ih (fun d hd => hgeom d (List.mem_cons_of_mem c hd)) b1 b2
      _ = (c :: cs).foldl (boundingStep t) (e1, e2) := rfl

/-- C8 (amended): after Layout on a scrollable collection the stored pixel
extent equals the bounding extent of all current children — computed from
each child's position, pin, size and rotation — whenever some child reports a
position or size change or no cached canvas exists; otherwise the previously
stored extent is retained untouched.  After Layout on a non-scrollable
collection the extent is the ceiling of the owning element's pixel size, or
exactly the view's size when the collection is the view's root. -/
theorem c8_layout_extent (t : Trig) (ht : t.Bounded)
    (ownerDims : Option (ℚ × ℚ)) (viewDims : ℚ × ℚ) (st : ElementsImpl)
    (hgeom : ∀ c ∈ st.children, 0 ≤ c.width ∧ 0 ≤ c.height) :
    (st.scrollable = true →
      ((st.children.any fun c => c.posChanged || c.sizeChanged) = true ∨
        st.canvas = none) →
      ((Layout t ownerDims viewDims st).width,
        (Layout t ownerDims viewDims st).height) =
        boundingExtent t st.children) ∧
    (st.scrollable = true →
      (st.children.any fun c => c.posChanged || c.sizeChanged) = false →
      st.canvas ≠ none →
      (Layout t ownerDims viewDims st).width = st.width ∧
      (Layout t ownerDims viewDims st).height = st.height) ∧
    (st.scrollable = false → ∀ od, ownerDims = some od →
      (Layout t ownerDims viewDims st).width = ((Int.ceil od.1).toNat : ℚ) ∧
      (Layout t ownerDims viewDims st).height = ((Int.ceil od.2).toNat : ℚ)) ∧
    (st.scrollable = false → ownerDims = none →
      (Layout t ownerDims viewDims st).width = viewDims.1 ∧
      (Layout t ownerDims viewDims st).height = viewDims.2) := by
  refine ⟨?_, ?_, ?_, ?_⟩
  · intro hscr hdisj
    have hcond : ((st.children.any fun c => c.posChanged || c.sizeChanged) ||
        st.canvas.isNone) = true := by
      rcases hdisj with h | h
      · simp [h]
      · simp [h]
    have hw1 : (Layout t ownerDims viewDims st).width =
        (st.children.foldl (fun acc c => UpdateChildExtent t c acc) (0, 0)).1 := by
      simp [Layout, hscr, hcond]
    have hh1 : (Layout t ownerDims viewDims st).height =
        (st.children.foldl (fun acc c => UpdateChildExtent t c acc) (0, 0)).2 := by
      simp [Layout, hscr, hcond]
    rw [hw1, hh1, foldl_update_eq_bounding t ht st.children hgeom 0 0]
    exact Prod.mk.eta
  · intro hscr hflags hcv
    have hcond : ((st.children.any fun c => c.posChanged || c.sizeChanged) ||
        st.canvas.isNone) = false := by
      rcases hcv2 : st.canvas with _ | cv
      · exact absurd hcv2 hcv
      · simp [hflags, hcv2]
    simp [Layout, hscr, hcond]
  · intro hscr od hod
    simp [Layout, hscr, hod]
  · intro hscr hod
    simp [Layout, hscr, hod]

/-- A scrollable collection with one freshly moved 3 by 2 child, used by the
C8 witness. -/
def wScrollState : ElementsImpl :=
  { children := [{ newElement 0 "a" with width := 3, height := 2, posChanged := true }],
    width := 0, height := 0, canvas := none, countChanged := true,
    hasPopup := false, scrollable := true, nextId := 1, nextCanvasId := 0 }

/-- Witness for C8: the identity-rotation trig is bounded, the child
geometry is sane, and Layout on the scrollable collection with the dirty
child stores exactly the children's bounding extent (3, 2). -/
theorem c8_layout_extent_witness :
    wTrig.Bounded ∧
    (∀ c ∈ wScrollState.children, 0 ≤ c.width ∧ 0 ≤ c.height) ∧
    wScrollState.scrollable = true ∧
    (wScrollState.children.any fun c => c.posChanged || c.sizeChanged) = true ∧
    ((Layout wTrig none (9, 9) wScrollState).width,
      (Layout wTrig none (9, 9) wScrollState).height) =
      boundingExtent wTrig wScrollState.children ∧
    boundingExtent wTrig wScrollState.children = (3, 2) := by
  have hb : wTrig.Bounded := by
    intro θ
    constructor <;> simp [wTrig]
  have hgeom : ∀ c ∈ wScrollState.children, 0 ≤ c.width ∧ 0 ≤ c.height := by
    intro c hc
    simp only [wScrollState, List.mem_singleton] at hc
    subst hc
    constructor <;> norm_num
  have h := (c8_layout_extent wTrig hb none (9, 9) wScrollState hgeom).1
    rfl (Or.inl (by decide))
  refine ⟨hb, hgeom, rfl, by decide, h, ?_⟩
  norm_num [boundingExtent, boundingStep, GetChildExtentInParent,
    wScrollState, newElement, wTrig, max_def]

/-- A scrollable collection whose stored extent 5 by 5 is stale: its only
child is flag-free with zero size, and a cached canvas exists, so Layout
keeps the stored extent. -/
def wStaleState : ElementsImpl :=
  { children := [newElement 0 "a"], width := 5, height := 5,
    canvas := some ⟨0, 5, 5⟩, countChanged := false, hasPopup := false,
    scrollable := true, nextId := 1, nextCanvasId := 1 }

/-- Counterexample to C8 as stated: after Layout on this scrollable
collection the stored extent is still 5, while the bounding extent of all
current children is 0 — the two differ, because Layout skips the recompute
when no child reports a change and a cached canvas exists (such a state is
reached, for example, by removing a large child: removal sets no flag on the
surviving children). -/
theorem c8_layout_extent_cex :
    (Layout wTrig none (9, 9) wStaleState).width = 5 ∧
    (boundingExtent wTrig wStaleState.children).1 = 0 := by
  constructor
  · rfl
  · norm_num [boundingExtent, boundingStep, GetChildExtentInParent,
      wStaleState, newElement, wTrig, max_def]

/- ---------------------------------------------------------------------
   C9: alpha-based image hit testing
   --------------------------------------------------------------------- -/

/-- C9: for an ImgElement with a loaded image and positive pixel dimensions,
at a point inside the base element bounds, IsPointIn answers true only if the
image pixel the point maps to (under the current crop / stretch-middle mode)
has positive opacity, whenever that pixel's value is readable; in particular
a point mapping to a fully transparent pixel (opacity zero, or any
non-positive reading) is reported as not in the element. -/
theorem c9_img_alpha_hit (msm : ℚ → ℚ → ℚ → ℚ → ℚ → ℚ → Point)
    (img : ImgState) (im : ImageModel) (x y : ℚ)
    (him : img.image = some im)
    (hw : 0 < img.pxWidth) (hh : 0 < img.pxHeight)
    (hiw : 0 < im.width) (hih : 0 < im.height)
    (hb : basicIsPointIn img.pxWidth img.pxHeight x y = true) :
    (∀ op : ℚ, im.getPointValue (imgMapPoint msm img im x y) = some op →
      op ≤ 0 → ImgIsPointIn msm img x y = false) ∧
    (ImgIsPointIn msm img x y = true →
      ∀ op : ℚ, im.getPointValue (imgMapPoint msm img im x y) = some op →
        0 < op) := by
  have hmain : ImgIsPointIn msm img x y =
      (match im.getPointValue (imgMapPoint msm img im x y) with
        | none => true
        | some op => decide (0 < op)) := by
    simp [ImgIsPointIn, hb, him, hw, hh]
  constructor
  · intro op hop hle
    rw [hmain, hop]
    simp [not_lt.mpr hle]
  · intro hin op hop
    rw [hmain, hop] at hin
    simpa using hin

/-- The stretch-middle mapping instance used by the C9 witness (the C9
statement holds for every such mapping; the witness does not exercise it). -/
def wMsm : ℚ → ℚ → ℚ → ℚ → ℚ → ℚ → Point := fun x y _ _ _ _ => (x, y)

/-- A 4 by 3 image that is fully transparent: every readable pixel has
opacity zero. -/
def wImgModel : ImageModel :=
  { width := 4, height := 3, getPointValue := fun _ => some 0 }

/-- An ImgElement state with the fully transparent image loaded, plain
stretching, pixel size 4 by 3. -/
def wImg : ImgState :=
  { image := some wImgModel, crop := CropMaintainAspect.cropFalse,
    stretchMiddle := false, pxWidth := 4, pxHeight := 3 }

/-- Witness for C9: the point (1, 1) lies inside the element's base bounds,
maps to a pixel read as fully transparent, and IsPointIn reports it as not
inside the element. -/
theorem c9_img_alpha_hit_witness :
    wImg.image = some wImgModel ∧
    (0 : ℚ) < wImg.pxWidth ∧ (0 : ℚ) < wImg.pxHeight ∧
    basicIsPointIn wImg.pxWidth wImg.pxHeight 1 1 = true ∧
    wImgModel.getPointValue (imgMapPoint wMsm wImg wImgModel 1 1) = some 0 ∧
    ImgIsPointIn wMsm wImg 1 1 = false := by
  have hb : basicIsPointIn wImg.pxWidth wImg.pxHeight 1 1 = true := by
    norm_num [basicIsPointIn, wImg]
  have h := (c9_img_alpha_hit wMsm wImg wImgModel 1 1 rfl
    (by norm_num [wImg]) (by norm_num [wImg])
    (by norm_num [wImg, wImgModel]) (by norm_num [wImg, wImgModel]) hb).1
    0 rfl le_rfl
  exact ⟨rfl, by norm_num [wImg], by norm_num [wImg], hb, rfl, h⟩

end GGadget
